import Mathlib

/-!
Verification of the cardano-models codecs (CIP-20/25/27 metadata and the
CardanoDns domain datum) against their natural-language specification.

The Go code is shallowly embedded: the external CBOR and JSON libraries are
abstracted to trees of already-parsed values (`CborValue`, `JsonValue`), which
is the level at which the repository's marshal/unmarshal methods operate
(constructor tags, maps, text/byte strings).  Go maps are represented
canonically as key-sorted association lists; Go `nil` slices and empty slices
are both represented by `[]`.  Fallible operations return `Except String`.
-/

/-- A parsed JSON value, as produced by `encoding/json` generic decoding.
Numbers are modelled exactly (as rationals); none of the verified claims
depends on float64 rounding. -/
inductive JsonValue where
  | null
  | bool (b : Bool)
  | num (q : Rat)
  | str (s : String)
  | arr (xs : List JsonValue)
  | obj (kvs : List (String × JsonValue))
deriving Repr

/-- A parsed CBOR data item, as handled by the fxamacker/gouroboros CBOR
libraries: unsigned and negative integers, byte and text strings, arrays,
maps, Plutus-style constructors (tag + ordered fields), and null.  Byte
strings are lists of byte values. -/
inductive CborValue where
  | uint (n : Nat)
  | nint (n : Nat)
  | bytes (bs : List Nat)
  | text (s : String)
  | arr (xs : List CborValue)
  | map (kvs : List (CborValue × CborValue))
  | constr (idx : Nat) (fields : List CborValue)
  | null
deriving Repr

/-- Association-list lookup, the model of Go map indexing (keys are unique in
a Go map; on lists with duplicate keys the first entry wins). -/
def alookup {β : Type} (kvs : List (String × β)) (k : String) : Option β :=
  match kvs with
  | [] => none
  | (k', v) :: rest => if k' = k then some v else alookup rest k

/-- The keys of an association list. -/
def akeys {β : Type} (kvs : List (String × β)) : List String :=
  kvs.map Prod.fst

/-- Strict lexicographic order on character sequences by code point — the
order that Go's bytewise string comparison induces on UTF-8 strings, which
is what both Go's JSON encoder and the repository's CBOR encoder sort map
keys by. -/
def charListLt : List Char → List Char → Bool
  | [], [] => false
  | [], _ :: _ => true
  | _ :: _, [] => false
  | c :: cs, d :: ds =>
      if c.toNat < d.toNat then true
      else if d.toNat < c.toNat then false
      else charListLt cs ds

/-- The matching reflexive order. -/
def charListLe : List Char → List Char → Bool
  | [], _ => true
  | _ :: _, [] => false
  | c :: cs, d :: ds =>
      if c.toNat < d.toNat then true
      else if d.toNat < c.toNat then false
      else charListLe cs ds

/-- Key order used to canonicalize Go maps. -/
def keyLE {β : Type} (a b : String × β) : Prop :=
  charListLe a.1.data b.1.data = true

/-- Strict key order. -/
def keyLt {β : Type} (a b : String × β) : Prop :=
  charListLt a.1.data b.1.data = true

instance {β : Type} : DecidableRel (keyLE (β := β)) := by
  intro a b
  unfold keyLE
  infer_instance

instance {β : Type} : DecidableRel (keyLt (β := β)) := by
  intro a b
  unfold keyLt
  infer_instance

/-- Sort an association list by key (ascending); models emitting a Go map
deterministically and the canonical representation of a freshly built map. -/
def sortPairs {β : Type} (kvs : List (String × β)) : List (String × β) :=
  List.insertionSort keyLE kvs

/-- Strict key-sortedness: the canonical well-formed shape of an embedded Go
map (ascending keys, hence no duplicates). -/
def SortedKeys {β : Type} (kvs : List (String × β)) : Prop :=
  List.Sorted (keyLt (β := β)) kvs

instance {β : Type} (kvs : List (String × β)) : Decidable (SortedKeys kvs) := by
  unfold SortedKeys List.Sorted
  infer_instance

/-! ## CardanoDns model (cdns.go, current revision)

`CardanoDnsMaybe[T]` is the Tagged Optional: constructor 0 with one field when
present, constructor 1 with no fields when absent.  The unexported `hasValue`
flag is the presence bit; the Go zero `Value` of an absent optional is passed
in as `z` where it matters (uint ttl: 0, `any`: nil, modelled by `.null`). -/

structure CardanoDnsMaybe (T : Type) where
  Value : T
  hasValue : Bool
deriving Repr

/-- CardanoDnsMaybe.MarshalCBOR: present encodes as constructor 0 with the
single value field, absent as constructor 1 with an empty field array. -/
def CardanoDnsMaybe.marshalCBOR {T : Type} (enc : T → CborValue)
    (m : CardanoDnsMaybe T) : CborValue :=
  if m.hasValue then .constr 0 [enc m.Value] else .constr 1 []

/-- CardanoDnsMaybe.UnmarshalCBOR: the input must decode as a constructor;
only constructor 0 is inspected, its field array must supply exactly the one
`Value` field (struct-as-array decoding); any other constructor index leaves
the zero value (absent) and reports no error. -/
def CardanoDnsMaybe.unmarshalCBOR {T : Type} (z : T)
    (dec : CborValue → Except String T) (d : CborValue) :
    Except String (CardanoDnsMaybe T) :=
  match d with
  | .constr 0 [v] => do
      let x ← dec v
      pure ⟨x, true⟩
  | .constr 0 _ => .error "cannot decode CBOR array to struct with different number of elements"
  | .constr _ _ => .ok ⟨z, false⟩
  | _ => .error "unexpected CBOR data type"

/-- Decoding a CBOR field expected to be a byte string (`[]byte`). -/
def decodeBytesField (c : CborValue) : Except String (List Nat) :=
  match c with
  | .bytes bs => .ok bs
  | _ => .error "expected byte string"

/-- Decoding a CBOR field expected to be an unsigned integer (`uint`). -/
def decodeUintField (c : CborValue) : Except String Nat :=
  match c with
  | .uint n => .ok n
  | _ => .error "expected unsigned integer"

structure CardanoDnsDomainRecord where
  Lhs : List Nat
  Ttl : CardanoDnsMaybe Nat
  -- the Go field is named `Type`, a reserved word in Lean
  Typ : List Nat
  Rhs : List Nat
deriving Repr

/-- CardanoDnsDomainRecord.MarshalCBOR: constructor 1 wrapping the four
fields in declaration order, the ttl as a Tagged Optional. -/
def CardanoDnsDomainRecord.marshalCBOR (r : CardanoDnsDomainRecord) : CborValue :=
  .constr 1 [.bytes r.Lhs,
             r.Ttl.marshalCBOR (fun n => .uint n),
             .bytes r.Typ,
             .bytes r.Rhs]

/-- CardanoDnsDomainRecord.UnmarshalCBOR: requires constructor index 1 and a
field array of exactly the four declared fields (struct-as-array decoding);
the second field is decoded as a Tagged Optional ttl. -/
def CardanoDnsDomainRecord.unmarshalCBOR (c : CborValue) :
    Except String CardanoDnsDomainRecord :=
  match c with
  | .constr 1 [l, t, ty, r] => do
      let lhs ← decodeBytesField l
      let ttl ← CardanoDnsMaybe.unmarshalCBOR 0 decodeUintField t
      let typ ← decodeBytesField ty
      let rhs ← decodeBytesField r
      pure ⟨lhs, ttl, typ, rhs⟩
  | .constr 1 _ => .error "cannot decode CBOR array to struct with different number of elements"
  | .constr i _ => .error s!"unexpected constructor index: {i}"
  | _ => .error "unexpected CBOR data type"

structure CardanoDnsDomain where
  Origin : List Nat
  Records : List CardanoDnsDomainRecord
  AdditionalData : CardanoDnsMaybe CborValue
deriving Repr

/-- CardanoDnsDomain.MarshalCBOR: constructor 1 wrapping origin, the record
list, and the additional-data Tagged Optional. -/
def CardanoDnsDomain.marshalCBOR (d : CardanoDnsDomain) : CborValue :=
  .constr 1 [.bytes d.Origin,
             .arr (d.Records.map CardanoDnsDomainRecord.marshalCBOR),
             d.AdditionalData.marshalCBOR id]

/-- CardanoDnsDomain.UnmarshalCBOR: requires constructor index 1 and exactly
three fields; records are decoded elementwise from the array field; the
additional data is a Tagged Optional over a generic value (decoded as-is). -/
def CardanoDnsDomain.unmarshalCBOR (c : CborValue) :
    Except String CardanoDnsDomain :=
  match c with
  | .constr 1 [o, recs, ad] => do
      let origin ← decodeBytesField o
      let records ← match recs with
        | .arr xs => xs.mapM CardanoDnsDomainRecord.unmarshalCBOR
        | _ => .error "expected array"
      let additional ← CardanoDnsMaybe.unmarshalCBOR CborValue.null .ok ad
      pure ⟨origin, records, additional⟩
  | .constr 1 _ => .error "cannot decode CBOR array to struct with different number of elements"
  | .constr i _ => .error s!"unexpected constructor index: {i}"
  | _ => .error "unexpected CBOR data type"

/-! The legacy decoder in cdns.go (2023 revision) decodes each record from its
raw field list inside `CardanoDnsDomain.UnmarshalCBOR`: three fields mean
`{lhs, type, rhs}` with the bare-uint ttl left at zero, four fields mean
`{lhs, ttl, type, rhs}` with the second field asserted to be a bare unsigned
integer (a failed type assertion panics; panics are modelled as errors), and
any other count is a decode error. -/

structure LegacyCardanoDnsDomainRecord where
  Lhs : List Nat
  Ttl : Nat
  -- the Go field is named `Type`, a reserved word in Lean
  Typ : List Nat
  Rhs : List Nat
deriving Repr

/-- The record-shape dispatch of the legacy cdns.go domain decoder, applied to
the field list of a record constructor. -/
def legacyRecordFromFields (fields : List CborValue) :
    Except String LegacyCardanoDnsDomainRecord :=
  match fields with
  | [l, ty, r] => do
      let lhs ← decodeBytesField l
      let typ ← decodeBytesField ty
      let rhs ← decodeBytesField r
      pure ⟨lhs, 0, typ, rhs⟩
  | [l, t, ty, r] => do
      let lhs ← decodeBytesField l
      let ttl ← decodeUintField t
      let typ ← decodeBytesField ty
      let rhs ← decodeBytesField r
      pure ⟨lhs, ttl, typ, rhs⟩
  | _ => .error s!"unexpected constructor field length: {fields.length}"

/-! ## Well-formedness of embedded DNS values

A decoded absent optional carries the Go zero value; a domain value is
canonical when its absent optionals do so too (this is how every value built
by `NewCardanoDnsMaybe(nil)` and by decoding looks). -/

/-- Recognizer for the modelled Go `nil` interface value. -/
def CborValue.isNull : CborValue → Bool
  | .null => true
  | _ => false

/-- Canonical record: an absent ttl carries the zero value 0. -/
def CardanoDnsDomainRecord.wf (r : CardanoDnsDomainRecord) : Prop :=
  r.Ttl.hasValue = false → r.Ttl.Value = 0

instance (r : CardanoDnsDomainRecord) : Decidable r.wf := by
  unfold CardanoDnsDomainRecord.wf
  infer_instance

/-- Canonical domain: canonical records and a canonical (nil) absent
additional-data optional. -/
def CardanoDnsDomain.wf (d : CardanoDnsDomain) : Prop :=
  (∀ r ∈ d.Records, r.wf) ∧
  (d.AdditionalData.hasValue = false → d.AdditionalData.Value.isNull = true)

instance (d : CardanoDnsDomain) : Decidable d.wf := by
  unfold CardanoDnsDomain.wf
  infer_instance

/-! ## Shared helpers: Go hex, UTF-8 bytes, and decimal parsing -/

/-- Value of one hex digit, accepting both cases as `encoding/hex` does. -/
def hexDigitVal (c : Char) : Option Nat :=
  if '0' ≤ c ∧ c ≤ '9' then some (c.toNat - 48)
  else if 'a' ≤ c ∧ c ≤ 'f' then some (c.toNat - 87)
  else if 'A' ≤ c ∧ c ≤ 'F' then some (c.toNat - 55)
  else none

/-- Hex-decode a character sequence two digits at a time; odd length or a
non-hex digit fails, as in `hex.DecodeString`. -/
def hexPairs : List Char → Option (List Nat)
  | [] => some []
  | [_] => none
  | c1 :: c2 :: rest => do
      let h ← hexDigitVal c1
      let l ← hexDigitVal c2
      let others ← hexPairs rest
      some ((h * 16 + l) :: others)

/-- Model of `hex.DecodeString`. -/
def hexDecode (s : String) : Option (List Nat) :=
  hexPairs s.data

/-- Lowercase hex digit of a value below 16. -/
def hexDigitChar (n : Nat) : Char :=
  if n < 10 then Char.ofNat (48 + n) else Char.ofNat (87 + n)

/-- Model of `hex.EncodeToString`: lowercase hex text of a byte sequence. -/
def hexEncode (bs : List Nat) : String :=
  String.mk (bs.foldr (fun b acc => hexDigitChar (b / 16) :: hexDigitChar (b % 16) :: acc) [])

/-- UTF-8 encoding of one character (Go strings are UTF-8 byte sequences). -/
def utf8EncodeChar (c : Char) : List Nat :=
  let n := c.toNat
  if n < 128 then [n]
  else if n < 2048 then [192 + n / 64, 128 + n % 64]
  else if n < 65536 then [224 + n / 4096, 128 + n / 64 % 64, 128 + n % 64]
  else [240 + n / 262144, 128 + n / 4096 % 64, 128 + n / 64 % 64, 128 + n % 64]

/-- The bytes of a Go string (`[]byte(s)`). -/
def strBytes (s : String) : List Nat :=
  (s.data.map utf8EncodeChar).flatten

/-- Numeric value of a digit sequence. -/
def decDigitsVal (cs : List Char) : Nat :=
  cs.foldl (fun n c => n * 10 + (c.toNat - 48)) 0

/-- Split a character list at the first dot. -/
def splitAtDot : List Char → List Char × Option (List Char)
  | [] => ([], none)
  | c :: rest =>
      if c = '.' then ([], some rest)
      else
        let p := splitAtDot rest
        (c :: p.1, p.2)

/-- Model of `strconv.ParseFloat` restricted to plain signed decimal
notation (the only forms the verified claims exercise); the value is kept
exact as a rational, which agrees with float64 on every comparison the code
makes for these inputs. -/
def parseGoFloat (s : String) : Option Rat :=
  let sg : Rat × List Char :=
    match s.data with
    | '-' :: rest => (-1, rest)
    | '+' :: rest => (1, rest)
    | body => (1, body)
  let ip := (splitAtDot sg.2).1
  let fp := ((splitAtDot sg.2).2).getD []
  if ip.all Char.isDigit && fp.all Char.isDigit && (!ip.isEmpty || !fp.isEmpty) then
    some (sg.1 * ((decDigitsVal ip : Rat) + (decDigitsVal fp : Rat) / ((10 : Rat) ^ fp.length)))
  else none

/-- Go's float64-to-int conversion truncates toward zero; on a rational in
lowest terms (positive denominator) that is the T-division of numerator by
denominator. -/
def goTruncInt (q : Rat) : Int :=
  Int.tdiv q.num (q.den : Int)

/-- Go's int-to-CBOR encoding: unsigned when non-negative, negative otherwise. -/
def cborOfInt (i : Int) : CborValue :=
  if 0 ≤ i then .uint i.toNat else .nint (-(i + 1)).toNat

/-- Remove the entries of an association list whose key is in `ks`. -/
def dropKeys {β : Type} (ks : List String) (kvs : List (String × β)) :
    List (String × β) :=
  kvs.filter (fun kv => !(ks.contains kv.1))

/-- Go map assignment `m[k] = v` on the association-list representation:
overwrite the binding if the key is present, append it otherwise. -/
def minsert {β : Type} (kvs : List (String × β)) (k : String) (v : β) :
    List (String × β) :=
  match kvs with
  | [] => [(k, v)]
  | (k', v') :: rest => if k' = k then (k, v) :: rest else (k', v') :: minsert rest k v

/-- Lookup in a CBOR map under a text key, the way fxamacker struct decoding
matches field names. -/
def clookup (kvs : List (CborValue × CborValue)) (k : String) : Option CborValue :=
  match kvs with
  | [] => none
  | (.text k', v) :: rest => if k' = k then some v else clookup rest k
  | _ :: rest => clookup rest k

/-! ## CIP-25 flexible scalar fields (cip25.go) -/

structure UriField where
  Uris : List String
deriving Repr

structure DescField where
  Descriptions : List String
deriving Repr

/-- Decoding a JSON array into `[]string`: every element must be a string
(a JSON null element is a no-op on the zero value, yielding `""`). -/
def jsonAsStringList : List JsonValue → Option (List String)
  | [] => some []
  | .str s :: rest => (jsonAsStringList rest).map (s :: ·)
  | .null :: rest => (jsonAsStringList rest).map ("" :: ·)
  | _ => none

/-- Decoding a CBOR array into `[]string`: every element must be a text
string (null decodes to the zero value `""`). -/
def cborAsStringList : List CborValue → Option (List String)
  | [] => some []
  | .text s :: rest => (cborAsStringList rest).map (s :: ·)
  | .null :: rest => (cborAsStringList rest).map ("" :: ·)
  | _ => none

/-- UriField.UnmarshalJSON: try a single string first (JSON null is a
no-op success on the zero string), then an array of strings. -/
def UriField.unmarshalJSON (j : JsonValue) : Except String UriField :=
  match j with
  | .str s => .ok ⟨[s]⟩
  | .null => .ok ⟨[""]⟩
  | .arr xs =>
      match jsonAsStringList xs with
      | some arr => .ok ⟨arr⟩
      | none => .error "URI field must be a string or an array of strings"
  | _ => .error "URI field must be a string or an array of strings"

/-- UriField.MarshalJSON: a single URI is emitted as a bare string,
otherwise the list is emitted as an array. -/
def UriField.marshalJSON (u : UriField) : JsonValue :=
  match u.Uris with
  | [s] => .str s
  | us => .arr (us.map .str)

/-- UriField.MarshalCBOR: same shape rule in the binary encoding. -/
def UriField.marshalCBOR (u : UriField) : CborValue :=
  match u.Uris with
  | [s] => .text s
  | us => .arr (us.map .text)

/-- UriField.UnmarshalCBOR: explicit null check first (nil list), then a
single text string, then an array of text strings. -/
def UriField.unmarshalCBOR (c : CborValue) : Except String UriField :=
  match c with
  | .null => .ok ⟨[]⟩
  | .text s => .ok ⟨[s]⟩
  | .arr xs =>
      match cborAsStringList xs with
      | some arr => .ok ⟨arr⟩
      | none => .error "URI field must be a string or an array of strings"
  | _ => .error "URI field must be a string or an array of strings"

/-- DescField.UnmarshalJSON: same shape tolerance as UriField. -/
def DescField.unmarshalJSON (j : JsonValue) : Except String DescField :=
  match j with
  | .str s => .ok ⟨[s]⟩
  | .null => .ok ⟨[""]⟩
  | .arr xs =>
      match jsonAsStringList xs with
      | some arr => .ok ⟨arr⟩
      | none => .error "description must be a string or an array of strings"
  | _ => .error "description must be a string or an array of strings"

/-- DescField.MarshalJSON: empty list emits the empty string, one element a
bare string, otherwise an array. -/
def DescField.marshalJSON (d : DescField) : JsonValue :=
  match d.Descriptions with
  | [] => .str ""
  | [s] => .str s
  | ds => .arr (ds.map .str)

/-- DescField.MarshalCBOR: empty list emits null, one element a bare text
string, otherwise an array. -/
def DescField.marshalCBOR (d : DescField) : CborValue :=
  match d.Descriptions with
  | [] => .null
  | [s] => .text s
  | ds => .arr (ds.map .text)

/-- DescField.UnmarshalCBOR: null, single text, or array of texts. -/
def DescField.unmarshalCBOR (c : CborValue) : Except String DescField :=
  match c with
  | .null => .ok ⟨[]⟩
  | .text s => .ok ⟨[s]⟩
  | .arr xs =>
      match cborAsStringList xs with
      | some arr => .ok ⟨arr⟩
      | none => .error "description must be a string or an array of strings"
  | _ => .error "description must be a string or an array of strings"

/-! ## CIP-25 asset metadata (cip25.go)

Policy and asset keys (`HexBytes`) are strings whose canonical in-memory form
is text (hex text for version-2 byte keys).  Go maps are embedded as
association lists; the decoders canonicalize freshly built maps by key-sorting
them, matching both Go map semantics (unique keys, no observable order) and
the sorted order every encoder in this file emits. -/

structure FileDetails where
  Name : String
  MediaType : String
  Src : UriField
  Extra : List (String × JsonValue)
deriving Repr

structure AssetMetadata where
  Name : String
  Image : UriField
  MediaType : String
  Description : DescField
  Files : List FileDetails
  Extra : List (String × JsonValue)
deriving Repr

/-- The statically known asset keys; everything else lands in `Extra`. -/
def assetTypedKeys : List String := ["name", "image", "mediaType", "description", "files"]

/-- The statically known file keys. -/
def fileTypedKeys : List String := ["name", "mediaType", "src"]

/-- FileDetails has no custom JSON encoder: the default struct encoding emits
the three tagged fields in declaration order and drops `Extra` (json:"-"). -/
def FileDetails.marshalJSON (f : FileDetails) : JsonValue :=
  .obj [("name", .str f.Name), ("mediaType", .str f.MediaType),
        ("src", f.Src.marshalJSON)]

/-- FileDetails.UnmarshalJSON: a range over the decoded map handles each key
independently, so it is rendered by key lookups: `name`/`mediaType` accept
string values and silently ignore others, `src` decodes as a UriField
(propagating its error), and all remaining keys are kept in `Extra`. -/
def FileDetails.unmarshalJSON (j : JsonValue) : Except String FileDetails :=
  match j with
  | .obj raw => do
      let name := match alookup raw "name" with
        | some (.str s) => s
        | _ => ""
      let mt := match alookup raw "mediaType" with
        | some (.str s) => s
        | _ => ""
      let src ← match alookup raw "src" with
        | some v => UriField.unmarshalJSON v
        | none => pure ⟨[]⟩
      pure ⟨name, mt, src, sortPairs (dropKeys fileTypedKeys raw)⟩
  | _ => .error "json: cannot unmarshal into Go value of type map"

/-- AssetMetadata.UnmarshalJSON, rendered by key lookups as above: `name` and
`mediaType` accept strings and ignore other types, `image` and `description`
decode their flexible scalar fields (errors propagate), `files` is processed
only when it is an array (elementwise, errors propagate), and every other key
is preserved in `Extra`. -/
def AssetMetadata.unmarshalJSON (j : JsonValue) : Except String AssetMetadata :=
  match j with
  | .obj raw => do
      let name := match alookup raw "name" with
        | some (.str s) => s
        | _ => ""
      let image ← match alookup raw "image" with
        | some v => UriField.unmarshalJSON v
        | none => pure ⟨[]⟩
      let mt := match alookup raw "mediaType" with
        | some (.str s) => s
        | _ => ""
      let desc ← match alookup raw "description" with
        | some v => DescField.unmarshalJSON v
        | none => pure ⟨[]⟩
      let files ← match alookup raw "files" with
        | some (.arr fs) => fs.mapM FileDetails.unmarshalJSON
        | _ => pure []
      pure ⟨name, image, mt, desc, files, sortPairs (dropKeys assetTypedKeys raw)⟩
  | _ => .error "json: cannot unmarshal into Go value of type map"

/-- The typed-field part of the output map of AssetMetadata.MarshalJSON:
name and image always; mediaType, description and files under their
field-specific emission conditions. -/
def AssetMetadata.typedJSON (a : AssetMetadata) : List (String × JsonValue) :=
  [("name", JsonValue.str a.Name), ("image", a.Image.marshalJSON)]
  ++ (if a.MediaType ≠ "" then [("mediaType", JsonValue.str a.MediaType)] else [])
  ++ (if a.Description.Descriptions.length > 0 then
        [("description", a.Description.marshalJSON)] else [])
  ++ (if a.Files.length > 0 then
        [("files", JsonValue.arr (a.Files.map FileDetails.marshalJSON))] else [])

/-- AssetMetadata.MarshalJSON: build the output map with the typed fields,
then copy `Extra` in — `maps.Copy` overwrites colliding keys.  The JSON
encoder emits map keys in sorted order. -/
def AssetMetadata.marshalJSON (a : AssetMetadata) : JsonValue :=
  JsonValue.obj (sortPairs (a.Extra.foldl (fun m kv => minsert m kv.1 kv.2) a.typedJSON))

/-- Default CBOR encoding of FileDetails per its cbor tags: the three fields
in declaration order; `Extra` carries the tag `cbor:"-"` and is dropped. -/
def FileDetails.marshalCBOR (f : FileDetails) : CborValue :=
  .map [(.text "name", .text f.Name), (.text "mediaType", .text f.MediaType),
        (.text "src", f.Src.marshalCBOR)]

/-- Default CBOR decoding of FileDetails per its cbor tags: fields are
matched by text key; absent or null keys leave the zero value; a
wrongly-typed present value is a decode error. -/
def FileDetails.unmarshalCBOR (c : CborValue) : Except String FileDetails :=
  match c with
  | .map kvs => do
      let name ← match clookup kvs "name" with
        | some (.text s) => pure s
        | some .null => pure ""
        | some _ => .error "cbor: cannot unmarshal into Go value of type string"
        | none => pure ""
      let mt ← match clookup kvs "mediaType" with
        | some (.text s) => pure s
        | some .null => pure ""
        | some _ => .error "cbor: cannot unmarshal into Go value of type string"
        | none => pure ""
      let src ← match clookup kvs "src" with
        | some v => UriField.unmarshalCBOR v
        | none => pure ⟨[]⟩
      pure ⟨name, mt, src, []⟩
  | _ => .error "cbor: cannot unmarshal into Go value of type struct"

/-- Default CBOR encoding of AssetMetadata per its cbor tags: name and image
always, mediaType only when non-empty (string omitempty), description always
(omitempty is ineffective on struct fields, matching encoding/json), files
only when non-empty; `Extra` (cbor:"-") is dropped. -/
def AssetMetadata.marshalCBOR (a : AssetMetadata) : CborValue :=
  .map ([(CborValue.text "name", CborValue.text a.Name),
         (CborValue.text "image", a.Image.marshalCBOR)]
        ++ (if a.MediaType ≠ "" then
              [(CborValue.text "mediaType", CborValue.text a.MediaType)] else [])
        ++ [(CborValue.text "description", a.Description.marshalCBOR)]
        ++ (if a.Files.length > 0 then
              [(CborValue.text "files", CborValue.arr (a.Files.map FileDetails.marshalCBOR))]
            else []))

/-- Default CBOR decoding of AssetMetadata per its cbor tags; unknown keys
are ignored and `Extra` (cbor:"-") is never populated. -/
def AssetMetadata.unmarshalCBOR (c : CborValue) : Except String AssetMetadata :=
  match c with
  | .map kvs => do
      let name ← match clookup kvs "name" with
        | some (.text s) => pure s
        | some .null => pure ""
        | some _ => .error "cbor: cannot unmarshal into Go value of type string"
        | none => pure ""
      let image ← match clookup kvs "image" with
        | some v => UriField.unmarshalCBOR v
        | none => pure ⟨[]⟩
      let mt ← match clookup kvs "mediaType" with
        | some (.text s) => pure s
        | some .null => pure ""
        | some _ => .error "cbor: cannot unmarshal into Go value of type string"
        | none => pure ""
      let desc ← match clookup kvs "description" with
        | some v => DescField.unmarshalCBOR v
        | none => pure ⟨[]⟩
      let files ← match clookup kvs "files" with
        | some (.arr fs) => fs.mapM FileDetails.unmarshalCBOR
        | some .null => pure []
        | some _ => .error "cbor: cannot unmarshal into Go value of type slice"
        | none => pure []
      pure ⟨name, image, mt, desc, files, []⟩
  | _ => .error "cbor: cannot unmarshal into Go value of type struct"

/-! ## Num721 (cip25.go): versioned key codec and the top-level container -/

structure Num721 where
  Version : Int
  Policies : List (String × List (String × AssetMetadata))
deriving Repr

/-- HexBytes.MarshalCBOR specialized to map keys as Num721.MarshalCBOR does:
under version 2 a key whose text parses as hex is emitted as those raw bytes,
falling back to the raw bytes of the text itself; under version 1 the key is
emitted as UTF-8 text. -/
def encodeKeyV (version : Int) (k : String) : CborValue :=
  if version = 2 then
    match hexDecode k with
    | some b => .bytes b
    | none => .bytes (strBytes k)
  else .text k

/-- Key decoding in Num721.UnmarshalCBOR: version 2 accepts a text key as-is
or converts a byte-string key to its hex text form; version 1 requires a text
key. -/
def decodeKeyV (version : Int) (k : CborValue) : Except String String :=
  if version = 2 then
    match k with
    | .text s => .ok s
    | .bytes b => .ok (hexEncode b)
    | _ => .error "expected key for v2"
  else
    match k with
    | .text s => .ok s
    | _ => .error "expected string key for v1"

/-- The version lookup of Num721.UnmarshalJSON: a number is truncated to int;
a string is parsed as a float and truncated; any other value (or an
unparseable string) leaves the zero version; an absent key defaults to 1. -/
def num721VersionJSON (raw : List (String × JsonValue)) : Int :=
  match alookup raw "version" with
  | some (.num q) => goTruncInt q
  | some (.str s) =>
      match parseGoFloat s with
      | some q => goTruncInt q
      | none => 0
  | some _ => 0
  | none => 1

/-- The version scan of Num721.UnmarshalCBOR: an entry under the text key
"version" holding an unsigned integer above 100 is an immediate error, one
at most 100 sets the version; a wrongly-typed value or an absent entry leaves
the zero version (later defaulted to 1). -/
def num721VersionScanCBOR (raw : List (CborValue × CborValue)) : Except String Int :=
  match clookup raw "version" with
  | some (.uint n) =>
      if n > 100 then .error "version number too large" else .ok (Int.ofNat n)
  | some _ => .ok 0
  | none => .ok 0

/-- The asset loop of Num721.UnmarshalJSON: each asset value is re-marshalled
and decoded as AssetMetadata (equivalently, decoded directly at this value
level); errors propagate. -/
def decodeAssetsJSON : List (String × JsonValue) →
    Except String (List (String × AssetMetadata))
  | [] => .ok []
  | (ak, av) :: rest => do
      let asset ← AssetMetadata.unmarshalJSON av
      let others ← decodeAssetsJSON rest
      .ok ((ak, asset) :: others)

/-- The policy loop of Num721.UnmarshalJSON: the "version" entry is skipped,
an entry whose value is not an object is silently skipped, and an object
entry is decoded assetwise (the fresh Go maps are canonicalized by key
sorting). -/
def decodePoliciesJSON : List (String × JsonValue) →
    Except String (List (String × List (String × AssetMetadata)))
  | [] => .ok []
  | (k, v) :: rest =>
      if k = "version" then decodePoliciesJSON rest
      else
        match v with
        | .obj pm => do
            let assets ← decodeAssetsJSON pm
            let others ← decodePoliciesJSON rest
            .ok ((k, sortPairs assets) :: others)
        | _ => decodePoliciesJSON rest

/-- Num721.UnmarshalJSON: decode the object generically, read the version
(defaulting to 1 when absent), then build the policy map. -/
def Num721.unmarshalJSON (j : JsonValue) : Except String Num721 :=
  match j with
  | .obj raw => do
      let pols ← decodePoliciesJSON raw
      .ok ⟨num721VersionJSON raw, sortPairs pols⟩
  | _ => .error "json: cannot unmarshal into Go value of type map"

/-- Num721.MarshalJSON: a "version" entry only when the version is not 1,
then one entry per policy; the JSON encoder emits all map keys sorted. -/
def Num721.marshalJSON (n : Num721) : JsonValue :=
  let base := if n.Version ≠ 1 then [("version", JsonValue.num (n.Version : Rat))] else []
  JsonValue.obj (sortPairs (base ++ n.Policies.map (fun kv =>
    (kv.1, JsonValue.obj (sortPairs (kv.2.map (fun akv =>
      (akv.1, akv.2.marshalJSON))))))))

/-- The asset loop of Num721.UnmarshalCBOR: keys go through the versioned
key codec, values through the AssetMetadata decoder. -/
def decodeAssetsCBOR (version : Int) : List (CborValue × CborValue) →
    Except String (List (String × AssetMetadata))
  | [] => .ok []
  | (k, v) :: rest => do
      let ak ← decodeKeyV version k
      let asset ← AssetMetadata.unmarshalCBOR v
      let others ← decodeAssetsCBOR version rest
      .ok ((ak, asset) :: others)

/-- Recognizer for the reserved "version" map key. -/
def isVersionKey : CborValue → Bool
  | .text s => s == "version"
  | _ => false

/-- The policy loop of Num721.UnmarshalCBOR: the "version" entry is skipped;
a policy key goes through the versioned key codec; a value that is not a map
is a hard error (unlike the JSON decoder). -/
def decodePoliciesCBOR (version : Int) : List (CborValue × CborValue) →
    Except String (List (String × List (String × AssetMetadata)))
  | [] => .ok []
  | (k, v) :: rest =>
      if isVersionKey k then decodePoliciesCBOR version rest
      else do
        let pk ← decodeKeyV version k
        let assets ← match v with
          | .map pm => decodeAssetsCBOR version pm
          | _ => .error "invalid policy structure"
        let others ← decodePoliciesCBOR version rest
        .ok ((pk, sortPairs assets) :: others)

/-- Num721.UnmarshalCBOR: scan for the version first (erroring above 100),
default the zero version to 1, then decode the policies under that version. -/
def Num721.unmarshalCBOR (c : CborValue) : Except String Num721 :=
  match c with
  | .map raw => do
      let v0 ← num721VersionScanCBOR raw
      let version : Int := if v0 = 0 then 1 else v0
      let pols ← decodePoliciesCBOR version raw
      .ok ⟨version, sortPairs pols⟩
  | _ => .error "cbor: cannot unmarshal into Go value of type map"

/-- Num721.MarshalCBOR: an indefinite-length map holding a "version" entry
only when the version is not 1, followed by the policies in ascending key
order (the code sorts the key slice), each inner asset map likewise sorted,
with all keys going through the versioned key codec. -/
def Num721.marshalCBOR (n : Num721) : CborValue :=
  let base := if n.Version ≠ 1 then [(CborValue.text "version", cborOfInt n.Version)] else []
  CborValue.map (base ++ (sortPairs n.Policies).map (fun kv =>
    (encodeKeyV n.Version kv.1,
     CborValue.map ((sortPairs kv.2).map (fun akv =>
       (encodeKeyV n.Version akv.1, akv.2.marshalCBOR))))))

/-- Cip25Metadata wraps Num721 under the "721" tag (the Go field is named
`Num721`, which in Lean would shadow the type). -/
structure Cip25Metadata where
  num721 : Num721
deriving Repr

/-- Default JSON encoding of Cip25Metadata per its json tag. -/
def Cip25Metadata.marshalJSON (c : Cip25Metadata) : JsonValue :=
  .obj [("721", c.num721.marshalJSON)]

/-- Default JSON decoding of Cip25Metadata per its json tag: an absent "721"
key leaves the zero Num721 value untouched. -/
def Cip25Metadata.unmarshalJSON (j : JsonValue) : Except String Cip25Metadata :=
  match j with
  | .obj raw =>
      match alookup raw "721" with
      | some v => do
          let n ← Num721.unmarshalJSON v
          .ok ⟨n⟩
      | none => .ok ⟨⟨0, []⟩⟩
  | _ => .error "json: cannot unmarshal into Go value of type struct"

/-! ## CIP-20 comment metadata and CIP-27 royalty metadata (cip20.go)

The declarative validator rules on the struct tags are modelled directly:
`required` on a string/slice fails on the empty value, `required` on a struct
fails on the zero struct, `gt=0` on a slice requires a non-empty list, and
`max=64` on a string bounds its character count (the validator counts runes,
as `String.length` does).  The Go distinction between a nil slice and an
empty one never decides any verified claim. -/

structure Num674 where
  Msg : List String
deriving Repr

structure Cip20Metadata where
  Num674 : Num674
deriving Repr

/-- Cip20Metadata.Validate: `validate.Struct` applies `required,gt=0` to the
message list and `dive,max=64` to each message, reporting the first
violation. -/
def Cip20Metadata.Validate (c : Cip20Metadata) : Except String Unit :=
  if c.Num674.Msg.isEmpty then
    .error "Field validation for 'Msg' failed on the 'required' tag"
  else
    match c.Num674.Msg.find? (fun m => m.length > 64) with
    | some _ => .error "Field validation for 'Msg' failed on the 'max' tag"
    | none => .ok ()

structure AddrField where
  Addresses : List String
deriving Repr

/-- AddrField.UnmarshalJSON: a single string first (JSON null is a no-op
success on the zero string), then an array of strings. -/
def AddrField.unmarshalJSON (j : JsonValue) : Except String AddrField :=
  match j with
  | .str s => .ok ⟨[s]⟩
  | .null => .ok ⟨[""]⟩
  | .arr xs =>
      match jsonAsStringList xs with
      | some arr => .ok ⟨arr⟩
      | none => .error "addr must be a string or an array of strings"
  | _ => .error "addr must be a string or an array of strings"

/-- AddrField.MarshalJSON: one address is emitted as a bare string,
otherwise the list is emitted as an array. -/
def AddrField.marshalJSON (af : AddrField) : JsonValue :=
  match af.Addresses with
  | [s] => .str s
  | xs => .arr (xs.map .str)

structure Cip777 where
  Rate : String
  pctRaw : Option String
  rateRaw : Option String
  Addr : AddrField
deriving Repr

structure Cip27Metadata where
  Num777 : Cip777
deriving Repr

/-- The zero Cip777 value, against which the validator's `required` tag on
the Num777 field checks. -/
def Cip777.isZero (c : Cip777) : Bool :=
  c.Rate == "" && c.pctRaw.isNone && c.rateRaw.isNone && c.Addr.Addresses.isEmpty

/-- Cip27Metadata.Validate: `validate.Struct` (Num777 required, Addr
required), then the rate must parse as a float, lie in [0, 1], and at least
one address must be present. -/
def Cip27Metadata.Validate (c : Cip27Metadata) : Except String Unit := do
  if c.Num777.isZero then
    .error "Field validation for 'Num777' failed on the 'required' tag"
  else if c.Num777.Addr.Addresses.isEmpty then
    .error "Field validation for 'Addr' failed on the 'required' tag"
  else
    match parseGoFloat c.Num777.Rate with
    | none => .error "rate must be a valid floating point number"
    | some val =>
        if val < 0 ∨ val > 1 then
          .error "rate must be between 0.0 and 1.0"
        else if c.Num777.Addr.Addresses.isEmpty then
          .error "at least one address is required"
        else .ok ()

/-! ## Auxiliary definitions used by the verification statements -/

/-- The entries of a JSON object (empty for non-objects). -/
def jsonObjEntries : JsonValue → List (String × JsonValue)
  | .obj kvs => kvs
  | _ => []

/-- Recognizer for JSON objects (the `value.(map[string]any)` assertion). -/
def isObjV : JsonValue → Bool
  | .obj _ => true
  | _ => false

/-- The entries of a CBOR map (empty for non-maps). -/
def cborMapEntries : CborValue → List (CborValue × CborValue)
  | .map kvs => kvs
  | _ => []

/-- Lookup in a CBOR map under an unsigned-integer key (`keyasint` tags). -/
def clookupU (kvs : List (CborValue × CborValue)) (n : Nat) : Option CborValue :=
  match kvs with
  | [] => none
  | (.uint n', v) :: rest => if n' = n then some v else clookupU rest n
  | _ :: rest => clookupU rest n

/-- Default CBOR encoding of Cip25Metadata per its `721,keyasint` tag. -/
def Cip25Metadata.marshalCBOR (c : Cip25Metadata) : CborValue :=
  .map [(.uint 721, c.num721.marshalCBOR)]

/-- Default CBOR decoding of Cip25Metadata per its `721,keyasint` tag: an
absent 721 key leaves the zero Num721 value untouched. -/
def Cip25Metadata.unmarshalCBOR (c : CborValue) : Except String Cip25Metadata :=
  match c with
  | .map kvs =>
      match clookupU kvs 721 with
      | some v => do
          let n ← Num721.unmarshalCBOR v
          .ok ⟨n⟩
      | none => .ok ⟨⟨0, []⟩⟩
  | _ => .error "cbor: cannot unmarshal into Go value of type struct"

/-! ## Well-formedness of embedded CIP-25 values

These predicates pin down which Go values an embedded Lean value stands for:
the embedded association lists are canonical (key-sorted) images of Go maps,
and the fields that the declared validation rules force to be non-empty are
non-empty.  The round-trip statements additionally need the keys that the
codec reserves or rewrites to be absent. -/

/-- A canonical embedded file whose JSON round trip is lossless: no extra
keys (the default encoder drops them) and a non-empty src (required by
validation; an empty one would encode as Go nil). -/
def FileDetails.wfJSON (f : FileDetails) : Prop :=
  f.Extra = [] ∧ f.Src.Uris ≠ []

/-- A canonical embedded asset whose JSON round trip is lossless: sorted
extra keys that avoid the five typed keys, and a non-empty image (required
by validation). -/
def AssetMetadata.wfJSON (a : AssetMetadata) : Prop :=
  SortedKeys a.Extra ∧
  (∀ k ∈ akeys a.Extra, k ∉ assetTypedKeys) ∧
  a.Image.Uris ≠ [] ∧
  ∀ f ∈ a.Files, f.wfJSON

/-- A canonical embedded Num721 whose JSON round trip is lossless: sorted
maps, no policy named "version" (that key is reserved), and lossless
assets. -/
def Num721.wfJSON (n : Num721) : Prop :=
  SortedKeys n.Policies ∧
  "version" ∉ akeys n.Policies ∧
  ∀ p ∈ n.Policies, SortedKeys p.2 ∧ ∀ a ∈ p.2, AssetMetadata.wfJSON a.2

/-- A canonical embedded asset whose CBOR round trip is lossless: the CBOR
codec drops `Extra` on both sides (cbor:"-"), so it must be empty. -/
def AssetMetadata.wfCBOR (a : AssetMetadata) : Prop :=
  a.Extra = [] ∧
  a.Image.Uris ≠ [] ∧
  ∀ f ∈ a.Files, f.Extra = [] ∧ f.Src.Uris ≠ []

/-- A canonical embedded Num721 whose CBOR round trip is lossless: version 1
(version-2 byte keys re-decode as lowercase hex text, so only canonical hex
keys would survive), sorted maps, no "version" policy key, lossless assets. -/
def Num721.wfCBOR (n : Num721) : Prop :=
  n.Version = 1 ∧
  SortedKeys n.Policies ∧
  "version" ∉ akeys n.Policies ∧
  ∀ p ∈ n.Policies, SortedKeys p.2 ∧ ∀ a ∈ p.2, AssetMetadata.wfCBOR a.2

/-- The declared CIP-25 validation rules (the struct tags of Num721,
AssetMetadata, UriField and FileDetails): version in 1..2, at least one
policy, and every asset with a non-empty name and image and fully named
files. -/
def validateNum721 (n : Num721) : Bool :=
  (1 ≤ n.Version && n.Version ≤ 2) && !n.Policies.isEmpty &&
  n.Policies.all (fun p => p.2.all (fun a =>
    a.2.Name != "" && !a.2.Image.Uris.isEmpty &&
    a.2.Files.all (fun f =>
      f.Name != "" && f.MediaType != "" && !f.Src.Uris.isEmpty)))

/-- Observation used to separate two decode results: the extra-map size of
the first file of the first asset of the first policy. -/
def firstFileExtraLen (n : Num721) : Nat :=
  match n.Policies with
  | (_, (_, a) :: _) :: _ =>
      match a.Files with
      | f :: _ => f.Extra.length
      | [] => 0
  | _ => 0

/-- The same observation through a decode result. -/
def firstFileExtraLenE (r : Except String Num721) : Nat :=
  match r with
  | .ok n => firstFileExtraLen n
  | .error _ => 0

/-- A file with an unknown property, used against the round-trip claim. -/
def c1file : FileDetails := ⟨"f", "m", ⟨["s"]⟩, [("x", .str "y")]⟩

/-- A valid asset carrying `c1file`. -/
def c1asset : AssetMetadata := ⟨"n", ⟨["i"]⟩, "", ⟨[]⟩, [c1file], []⟩

/-- A valid Num721 whose file extra data is lost by the JSON round trip. -/
def c1num : Num721 := ⟨1, [("p", [("a", c1asset)])]⟩

/-- An asset whose Extra collides with the typed "name" key. -/
def c6asset : AssetMetadata := ⟨"a", ⟨["i"]⟩, "", ⟨[]⟩, [], [("name", .str "b")]⟩

/-- A canonical concrete domain used to instantiate the round-trip result. -/
def wDomain : CardanoDnsDomain :=
  ⟨[118], [⟨[97], ⟨3600, true⟩, [65], [66]⟩, ⟨[97], ⟨0, false⟩, [65], [66]⟩],
   ⟨CborValue.null, false⟩⟩

/-- A concrete asset with extra data, used to instantiate round-trip
results. -/
def wAsset : AssetMetadata :=
  ⟨"n", ⟨["i", "j"]⟩, "mt", ⟨["d1", "d2"]⟩, [⟨"f", "m", ⟨["s"]⟩, []⟩],
   [("attributes", .obj [("k", .num 5)])]⟩

/-- A concrete version-2 Num721 used to instantiate the JSON round trip. -/
def wNumJ : Num721 := ⟨2, [("p1", [("a1", wAsset)]), ("p2", [])]⟩

/-- A concrete asset without extra data, for the CBOR round trip. -/
def wAssetC : AssetMetadata :=
  ⟨"n", ⟨["i", "j"]⟩, "mt", ⟨["d1", "d2"]⟩, [⟨"f", "m", ⟨["s"]⟩, []⟩], []⟩

/-- A concrete version-1 Num721 used to instantiate the CBOR round trip. -/
def wNumC : Num721 := ⟨1, [("p1", [("a1", wAssetC)]), ("p2", [])]⟩

/-- Emptiness of a list is decidable without decidable equality of the
elements. -/
instance {α : Type} (l : List α) : Decidable (l = []) :=
  match l with
  | [] => isTrue rfl
  | _ :: _ => isFalse (fun h => List.noConfusion h)

instance {β : Type} : DecidableRel (keyLt (β := β)) := fun a b =>
  inferInstanceAs (Decidable (charListLt a.1.data b.1.data = true))

instance {β : Type} (l : List (String × β)) : Decidable (SortedKeys l) :=
  inferInstanceAs (Decidable (List.Pairwise (keyLt (β := β)) l))

instance (f : FileDetails) : Decidable f.wfJSON := by
  unfold FileDetails.wfJSON
  infer_instance

instance (a : AssetMetadata) : Decidable a.wfJSON := by
  unfold AssetMetadata.wfJSON
  infer_instance

instance (n : Num721) : Decidable n.wfJSON := by
  unfold Num721.wfJSON
  infer_instance

instance (a : AssetMetadata) : Decidable a.wfCBOR := by
  unfold AssetMetadata.wfCBOR
  infer_instance

instance (n : Num721) : Decidable n.wfCBOR := by
  unfold Num721.wfCBOR
  infer_instance

/-! ## Association-list and sorting lemmas -/

theorem charToNat_inj {c d : Char} (h : c.toNat = d.toNat) : c = d := by
  have hc := Char.ofNat_toNat c
  have hd := Char.ofNat_toNat d
  rw [← hc, ← hd, h]

theorem charListLe_total : ∀ xs ys : List Char,
    charListLe xs ys = true ∨ charListLe ys xs = true
  | [], _ => Or.inl rfl
  | _ :: _, [] => Or.inr rfl
  | c :: cs, d :: ds => by
      by_cases h1 : c.toNat < d.toNat
      · exact Or.inl (by simp [charListLe, h1])
      · by_cases h2 : d.toNat < c.toNat
        · exact Or.inr (by simp [charListLe, h2])
        · rcases charListLe_total cs ds with h | h
          · exact Or.inl (by simp [charListLe, h1, h2, h])
          · exact Or.inr (by simp [charListLe, h1, h2, h])

theorem charListLe_trans : ∀ xs ys zs : List Char, charListLe xs ys = true →
    charListLe ys zs = true → charListLe xs zs = true
  | [], _, _, _, _ => rfl
  | _ :: _, [], _, h, _ => by simp [charListLe] at h
  | _ :: _, _ :: _, [], _, h => by simp [charListLe] at h
  | x :: xs, y :: ys, z :: zs, h1, h2 => by
      simp only [charListLe] at h1 h2 ⊢
      split at h1
      · next hxy =>
        split at h2
        · next hyz =>
            rw [if_pos (by omega)]
        · split at h2
          · exact absurd h2 (by simp)
          · next hyz hzy =>
              rw [if_pos (by omega)]
      · split at h1
        · exact absurd h1 (by simp)
        · next hxy hyx =>
          split at h2
          · next hyz =>
              rw [if_pos (by omega)]
          · split at h2
            · exact absurd h2 (by simp)
            · next hyz hzy =>
                rw [if_neg (by omega), if_neg (by omega)]
                exact charListLe_trans xs ys zs h1 h2

theorem charListLt_asymm : ∀ xs ys : List Char, charListLt xs ys = true →
    charListLt ys xs = true → False
  | [], [], h, _ => by simp [charListLt] at h
  | [], _ :: _, _, h => by simp [charListLt] at h
  | _ :: _, [], h, _ => by simp [charListLt] at h
  | x :: xs, y :: ys, h1, h2 => by
      simp only [charListLt] at h1 h2
      split at h1
      · next hxy =>
        rw [if_neg (by omega), if_pos (by omega)] at h2
        exact absurd h2 (by simp)
      · split at h1
        · exact absurd h1 (by simp)
        · next hxy hyx =>
          rw [if_neg (by omega), if_neg (by omega)] at h2
          exact charListLt_asymm xs ys h1 h2

theorem charListLt_ne : ∀ xs ys : List Char, charListLt xs ys = true → xs ≠ ys
  | [], [], h => by simp [charListLt] at h
  | [], _ :: _, _ => by simp
  | _ :: _, [], h => by simp [charListLt] at h
  | x :: xs, y :: ys, h => by
      simp only [charListLt] at h
      split at h
      · next hxy =>
        intro he
        injection he with he1 he2
        rw [he1] at hxy
        omega
      · split at h
        · exact absurd h (by simp)
        · next hxy hyx =>
          intro he
          injection he with he1 he2
          exact charListLt_ne xs ys h he2

theorem charListLt_le : ∀ xs ys : List Char, charListLt xs ys = true →
    charListLe xs ys = true
  | [], _, _ => rfl
  | _ :: _, [], h => by simp [charListLt] at h
  | x :: xs, y :: ys, h => by
      simp only [charListLt] at h
      simp only [charListLe]
      split at h
      · next hxy => rw [if_pos hxy]
      · split at h
        · exact absurd h (by simp)
        · next hxy hyx =>
          rw [if_neg hxy, if_neg hyx]
          exact charListLt_le xs ys h

theorem charListLe_lt_of_ne : ∀ xs ys : List Char, charListLe xs ys = true →
    xs ≠ ys → charListLt xs ys = true
  | [], [], _, hne => absurd rfl hne
  | [], _ :: _, _, _ => rfl
  | _ :: _, [], h, _ => by simp [charListLe] at h
  | x :: xs, y :: ys, h, hne => by
      simp only [charListLe] at h
      simp only [charListLt]
      split at h
      · next hxy => rw [if_pos hxy]
      · split at h
        · exact absurd h (by simp)
        · next hxy hyx =>
          rw [if_neg hxy, if_neg hyx]
          have hcd : x = y := charToNat_inj (by omega)
          refine charListLe_lt_of_ne xs ys h ?_
          intro he
          exact hne (by rw [hcd, he])

instance {β : Type} : IsTotal (String × β) keyLE :=
  ⟨fun a b => charListLe_total a.1.data b.1.data⟩

instance {β : Type} : IsTrans (String × β) keyLE :=
  ⟨fun _ _ _ hab hbc => charListLe_trans _ _ _ hab hbc⟩

instance {β : Type} : IsAntisymm (String × β) (keyLt (β := β)) :=
  ⟨fun _ _ hab hba => (charListLt_asymm _ _ hab hba).elim⟩

theorem keyLt_fst_ne {β : Type} {a b : String × β} (h : keyLt a b) :
    a.1 ≠ b.1 :=
  fun he => charListLt_ne _ _ h (by rw [he])

theorem akeys_cons {β : Type} (kv : String × β) (l : List (String × β)) :
    akeys (kv :: l) = kv.1 :: akeys l := rfl

theorem akeys_append {β : Type} (l₁ l₂ : List (String × β)) :
    akeys (l₁ ++ l₂) = akeys l₁ ++ akeys l₂ := by
  simp [akeys]

theorem alookup_perm {β : Type} {l₁ l₂ : List (String × β)} (h : l₁.Perm l₂)
    (hnd : (akeys l₁).Nodup) (k : String) : alookup l₁ k = alookup l₂ k := by
  induction h with
  | nil => rfl
  | cons x h ih =>
      rw [akeys_cons, List.nodup_cons] at hnd
      simp only [alookup]
      split
      · rfl
      · exact ih hnd.2 
  | swap x y l =>
      rw [akeys_cons, akeys_cons, List.nodup_cons] at hnd
      have hxy : y.1 ≠ x.1 := by
        intro hh
        exact hnd.1 (by simp [hh])
      rcases x with ⟨xk, xv⟩
      rcases y with ⟨yk, yv⟩
      simp only [alookup]
      by_cases h1 : yk = k <;> by_cases h2 : xk = k <;> simp_all
  | trans h₁ h₂ ih₁ ih₂ =>
      rw [ih₁ hnd]
      exact ih₂ (((h₁.map Prod.fst).nodup_iff).mp hnd)

theorem sortPairs_perm {β : Type} (l : List (String × β)) :
    (sortPairs l).Perm l :=
  List.perm_insertionSort keyLE l

theorem akeys_sortPairs_nodup {β : Type} {l : List (String × β)}
    (hnd : (akeys l).Nodup) : (akeys (sortPairs l)).Nodup :=
  (((sortPairs_perm l).map Prod.fst).nodup_iff).mpr hnd

theorem alookup_sortPairs {β : Type} (l : List (String × β))
    (hnd : (akeys l).Nodup) (k : String) :
    alookup (sortPairs l) k = alookup l k :=
  alookup_perm (sortPairs_perm l) (akeys_sortPairs_nodup hnd) k

theorem stringData_inj {s t : String} (h : s.data = t.data) : s = t :=
  String.ext h

theorem SortedKeys.nodup_akeys {β : Type} {l : List (String × β)}
    (h : SortedKeys l) : (akeys l).Nodup := by
  have : List.Pairwise (fun a b : String => a ≠ b) (l.map Prod.fst) := by
    rw [List.pairwise_map]
    exact h.imp (fun hab => keyLt_fst_ne hab)
  exact this

theorem sortPairs_eq_self {β : Type} {l : List (String × β)}
    (h : SortedKeys l) : sortPairs l = l :=
  List.Sorted.insertionSort_eq (h.imp (fun hab => charListLt_le _ _ hab))

theorem eq_of_perm_sortedKeys {β : Type} {l₁ l₂ : List (String × β)}
    (h : l₁.Perm l₂) (h₁ : SortedKeys l₁) (h₂ : SortedKeys l₂) : l₁ = l₂ :=
  List.eq_of_perm_of_sorted h h₁ h₂

theorem sortPairs_sortedKeys {β : Type} (l : List (String × β))
    (hnd : (akeys l).Nodup) : SortedKeys (sortPairs l) := by
  have hs : List.Sorted keyLE (sortPairs l) := List.sorted_insertionSort keyLE l
  have hnd' : List.Pairwise (fun a b : String × β => a.1 ≠ b.1) (sortPairs l) := by
    have h2 : List.Pairwise (fun a b : String => a ≠ b)
        ((sortPairs l).map Prod.fst) := akeys_sortPairs_nodup (l := l) hnd
    exact List.pairwise_map.mp h2
  exact (hs.and hnd').imp
    (fun hab => charListLe_lt_of_ne _ _ hab.1
      (fun hd => hab.2 (stringData_inj hd)))

theorem alookup_append {β : Type} (l₁ l₂ : List (String × β)) (k : String) :
    alookup (l₁ ++ l₂) k =
      match alookup l₁ k with
      | some v => some v
      | none => alookup l₂ k := by
  induction l₁ with
  | nil => rfl
  | cons kv rest ih =>
      rcases kv with ⟨k', v⟩
      by_cases hk : k' = k <;> simp [alookup, hk, ih]

theorem alookup_eq_none_of_not_mem {β : Type} {l : List (String × β)}
    {k : String} (h : k ∉ akeys l) : alookup l k = none := by
  induction l with
  | nil => rfl
  | cons kv rest ih =>
      rw [akeys_cons, List.mem_cons, not_or] at h
      simp only [alookup]
      rw [if_neg (fun hh => h.1 hh.symm)]
      exact ih h.2

theorem minsert_of_not_mem {β : Type} {l : List (String × β)} {k : String}
    (h : k ∉ akeys l) (v : β) : minsert l k v = l ++ [(k, v)] := by
  induction l with
  | nil => rfl
  | cons kv rest ih =>
      rw [akeys_cons, List.mem_cons, not_or] at h
      simp only [minsert]
      rw [if_neg (fun hh => h.1 hh.symm)]
      rw [ih h.2]
      simp

theorem foldl_minsert_append {β : Type} (ext : List (String × β))
    (base : List (String × β))
    (hdis : ∀ k ∈ akeys ext, k ∉ akeys base)
    (hnd : (akeys ext).Nodup) :
    ext.foldl (fun m kv => minsert m kv.1 kv.2) base = base ++ ext := by
  induction ext generalizing base with
  | nil => simp
  | cons kv rest ih =>
      rcases kv with ⟨k, v⟩
      rw [akeys_cons, List.nodup_cons] at hnd
      simp only [List.foldl_cons]
      rw [minsert_of_not_mem (hdis k (by simp [akeys_cons])) v]
      rw [ih (base ++ [(k, v)])
            (fun k' hk' => by
              rw [akeys_append]
              intro hmem
              rcases List.mem_append.mp hmem with hb | hs
              · exact hdis k' (by simp [akeys_cons, hk']) hb
              · simp [akeys] at hs
                subst hs
                exact hnd.1 hk')
            hnd.2]
      simp

/-! ## Round-trip lemmas for the CardanoDns model -/

theorem maybe_roundtrip {T : Type} (z : T) (enc : T → CborValue)
    (dec : CborValue → Except String T) (hdec : ∀ x, dec (enc x) = .ok x)
    (m : CardanoDnsMaybe T) (hwf : m.hasValue = false → m.Value = z) :
    CardanoDnsMaybe.unmarshalCBOR z dec (m.marshalCBOR enc) = .ok m := by
  rcases m with ⟨v, hv⟩
  cases hv with
  | true =>
      simp [CardanoDnsMaybe.marshalCBOR, CardanoDnsMaybe.unmarshalCBOR, hdec v]
  | false =>
      have hz : v = z := hwf rfl
      subst hz
      simp [CardanoDnsMaybe.marshalCBOR, CardanoDnsMaybe.unmarshalCBOR]

theorem record_roundtrip (r : CardanoDnsDomainRecord)
    (hwf : r.wf) :
    CardanoDnsDomainRecord.unmarshalCBOR r.marshalCBOR = .ok r := by
  rcases r with ⟨l, ttl, ty, rhs⟩
  simp only [CardanoDnsDomainRecord.marshalCBOR, CardanoDnsDomainRecord.unmarshalCBOR]
  rw [maybe_roundtrip 0 (fun n => .uint n)
        decodeUintField (fun x => rfl) ttl hwf]
  rfl

theorem records_roundtrip (rs : List CardanoDnsDomainRecord)
    (hwf : ∀ r ∈ rs, r.wf) :
    (rs.map CardanoDnsDomainRecord.marshalCBOR).mapM
      CardanoDnsDomainRecord.unmarshalCBOR = .ok rs := by
  induction rs with
  | nil => rfl
  | cons r rest ih =>
      simp only [List.map_cons, List.mapM_cons]
      rw [record_roundtrip r (hwf r (by simp))]
      rw [ih (fun x hx => hwf x (by simp [hx]))]
      rfl

theorem domain_roundtrip (d : CardanoDnsDomain) (hwf : d.wf) :
    CardanoDnsDomain.unmarshalCBOR d.marshalCBOR = .ok d := by
  rcases d with ⟨o, rs, ad⟩
  rcases hwf with ⟨hrec, had⟩
  simp only [CardanoDnsDomain.marshalCBOR, CardanoDnsDomain.unmarshalCBOR]
  rw [records_roundtrip rs hrec]
  have hmaybe : CardanoDnsMaybe.unmarshalCBOR CborValue.null Except.ok
      (ad.marshalCBOR id) = .ok ad := by
    apply maybe_roundtrip CborValue.null id
      Except.ok (fun x => rfl) ad
    intro h
    have := had h
    rcases ad with ⟨v, hv⟩
    cases v <;> simp_all [CborValue.isNull]
  rw [hmaybe]
  rfl

/-! ## Round-trip lemmas for the flexible scalar fields -/

theorem jsonAsStringList_map_str (xs : List String) :
    jsonAsStringList (xs.map .str) = some xs := by
  induction xs with
  | nil => rfl
  | cons x rest ih => simp [jsonAsStringList, ih]

theorem cborAsStringList_map_text (xs : List String) :
    cborAsStringList (xs.map .text) = some xs := by
  induction xs with
  | nil => rfl
  | cons x rest ih => simp [cborAsStringList, ih]

theorem uri_json_roundtrip (us : List String) (h : us ≠ []) :
    UriField.unmarshalJSON (UriField.marshalJSON ⟨us⟩) = .ok ⟨us⟩ := by
  match us, h with
  | [x], _ => rfl
  | x :: y :: rest, _ =>
      simp [UriField.marshalJSON, UriField.unmarshalJSON, jsonAsStringList,
            jsonAsStringList_map_str]

theorem uri_cbor_roundtrip (us : List String) (h : us ≠ []) :
    UriField.unmarshalCBOR (UriField.marshalCBOR ⟨us⟩) = .ok ⟨us⟩ := by
  match us, h with
  | [x], _ => rfl
  | x :: y :: rest, _ =>
      simp [UriField.marshalCBOR, UriField.unmarshalCBOR, cborAsStringList,
            cborAsStringList_map_text]

theorem desc_json_roundtrip (ds : List String) (h : ds ≠ []) :
    DescField.unmarshalJSON (DescField.marshalJSON ⟨ds⟩) = .ok ⟨ds⟩ := by
  match ds, h with
  | [x], _ => rfl
  | x :: y :: rest, _ =>
      simp [DescField.marshalJSON, DescField.unmarshalJSON, jsonAsStringList,
            jsonAsStringList_map_str]

theorem desc_cbor_roundtrip (ds : List String) (h : ds ≠ []) :
    DescField.unmarshalCBOR (DescField.marshalCBOR ⟨ds⟩) = .ok ⟨ds⟩ := by
  match ds, h with
  | [x], _ => rfl
  | x :: y :: rest, _ =>
      simp [DescField.marshalCBOR, DescField.unmarshalCBOR, cborAsStringList,
            cborAsStringList_map_text]

theorem addr_json_roundtrip (xs : List String) (h : xs ≠ []) :
    AddrField.unmarshalJSON (AddrField.marshalJSON ⟨xs⟩) = .ok ⟨xs⟩ := by
  match xs, h with
  | [x], _ => rfl
  | x :: y :: rest, _ =>
      simp [AddrField.marshalJSON, AddrField.unmarshalJSON, jsonAsStringList,
            jsonAsStringList_map_str]

/-- C7: for the flexible scalar fields (UriField, AddrField, DescField),
encoding a one-element sequence yields a bare scalar string, encoding a
sequence of two or more elements yields an array of strings, and decoding
the emitted shape yields the original sequence back. -/
theorem C7_flexible_scalar_field :
    (∀ s : String,
      UriField.marshalJSON ⟨[s]⟩ = .str s ∧
      UriField.marshalCBOR ⟨[s]⟩ = .text s ∧
      AddrField.marshalJSON ⟨[s]⟩ = .str s ∧
      DescField.marshalJSON ⟨[s]⟩ = .str s ∧
      DescField.marshalCBOR ⟨[s]⟩ = .text s) ∧
    (∀ (x y : String) (rest : List String),
      UriField.marshalJSON ⟨x :: y :: rest⟩ = .arr ((x :: y :: rest).map .str) ∧
      UriField.marshalCBOR ⟨x :: y :: rest⟩ = .arr ((x :: y :: rest).map .text) ∧
      AddrField.marshalJSON ⟨x :: y :: rest⟩ = .arr ((x :: y :: rest).map .str) ∧
      DescField.marshalJSON ⟨x :: y :: rest⟩ = .arr ((x :: y :: rest).map .str) ∧
      DescField.marshalCBOR ⟨x :: y :: rest⟩ = .arr ((x :: y :: rest).map .text)) ∧
    (∀ us : List String, us ≠ [] →
      UriField.unmarshalJSON (UriField.marshalJSON ⟨us⟩) = .ok ⟨us⟩ ∧
      UriField.unmarshalCBOR (UriField.marshalCBOR ⟨us⟩) = .ok ⟨us⟩ ∧
      AddrField.unmarshalJSON (AddrField.marshalJSON ⟨us⟩) = .ok ⟨us⟩ ∧
      DescField.unmarshalJSON (DescField.marshalJSON ⟨us⟩) = .ok ⟨us⟩ ∧
      DescField.unmarshalCBOR (DescField.marshalCBOR ⟨us⟩) = .ok ⟨us⟩) := by
  refine ⟨fun s => ⟨rfl, rfl, rfl, rfl, rfl⟩,
          fun x y rest => ⟨rfl, rfl, rfl, rfl, rfl⟩,
          fun us h => ⟨uri_json_roundtrip us h, uri_cbor_roundtrip us h,
                       addr_json_roundtrip us h, desc_json_roundtrip us h,
                       desc_cbor_roundtrip us h⟩⟩

/-- Closed instance of C7 at a two-element sequence. -/
theorem C7_flexible_scalar_field_witness :
    UriField.unmarshalJSON (UriField.marshalJSON ⟨["u1", "u2"]⟩) = .ok ⟨["u1", "u2"]⟩ ∧
    DescField.unmarshalCBOR (DescField.marshalCBOR ⟨["u1", "u2"]⟩) = .ok ⟨["u1", "u2"]⟩ :=
  ⟨(C7_flexible_scalar_field.2.2 ["u1", "u2"] (by decide)).1,
   (C7_flexible_scalar_field.2.2 ["u1", "u2"] (by decide)).2.2.2.2⟩

/-- C8: encoding a present Tagged Optional always yields constructor 0 with
the single encoded value as its only field; encoding an absent one always
yields constructor 1 with no fields. -/
theorem C8_tagged_optional_encode {T : Type} (enc : T → CborValue) (x z : T) :
    CardanoDnsMaybe.marshalCBOR enc ⟨x, true⟩ = .constr 0 [enc x] ∧
    CardanoDnsMaybe.marshalCBOR enc ⟨z, false⟩ = .constr 1 [] :=
  ⟨rfl, rfl⟩

/-- C3 as stated is false: decoding a constructor index other than 0 or 1
(here 7) does not return an error — it succeeds with the absent value. -/
theorem C3_counterexample :
    CardanoDnsMaybe.unmarshalCBOR 0 decodeUintField (.constr 7 []) =
      .ok ⟨0, false⟩ ∧
    ¬∃ e, CardanoDnsMaybe.unmarshalCBOR 0 decodeUintField (.constr 7 []) =
      .error e := by
  refine ⟨rfl, ?_⟩
  rintro ⟨e, h⟩
  rw [show CardanoDnsMaybe.unmarshalCBOR 0 decodeUintField (.constr 7 []) =
      .ok ⟨0, false⟩ from rfl] at h
  exact Except.noConfusion h

/-- C3 amended: decoding any constructor index other than 0 succeeds with
the absent (zero) value and no error; decoding constructor 0 whose field
list does not supply exactly the single payload field is an error. -/
theorem C3_maybe_decode (T : Type) (z : T) (dec : CborValue → Except String T)
    (i : Nat) (fields : List CborValue) (hi : i ≠ 0)
    (fs : List CborValue) (hlen : fs.length ≠ 1) :
    CardanoDnsMaybe.unmarshalCBOR z dec (.constr i fields) = .ok ⟨z, false⟩ ∧
    ∃ e, CardanoDnsMaybe.unmarshalCBOR z dec (.constr 0 fs) = .error e := by
  constructor
  · cases i with
    | zero => exact absurd rfl hi
    | succ j => rfl
  · rcases fs with _ | ⟨v, _ | ⟨w, rest⟩⟩
    · exact ⟨_, rfl⟩
    · simp at hlen
    · exact ⟨_, rfl⟩

/-- Closed instance of the amended C3. -/
theorem C3_maybe_decode_witness :
    CardanoDnsMaybe.unmarshalCBOR 0 decodeUintField (.constr 5 [.uint 9]) =
      .ok ⟨0, false⟩ ∧
    ∃ e, CardanoDnsMaybe.unmarshalCBOR 0 decodeUintField (.constr 0 []) =
      .error e :=
  C3_maybe_decode Nat 0 decodeUintField 5 [.uint 9] (by decide) [] (by decide)

/-- C2 as stated is false for the current record decoder: a 4-field record
whose second field is a bare unsigned integer is an error (no fallback), and
a 3-field record is an error rather than a ttl-absent record. -/
theorem C2_counterexample :
    (∃ e, CardanoDnsDomainRecord.unmarshalCBOR
        (.constr 1 [.bytes [97], .uint 5, .bytes [98], .bytes [99]]) =
        .error e) ∧
    (∃ e, CardanoDnsDomainRecord.unmarshalCBOR
        (.constr 1 [.bytes [97], .bytes [98], .bytes [99]]) = .error e) :=
  ⟨⟨_, rfl⟩, ⟨_, rfl⟩⟩

/-- C2 amended: the current CardanoDnsDomainRecord decoder accepts only
constructor-1 records with exactly four fields whose second field is a
Tagged Optional (present or absent) — a bare-integer second field and any
other field count are hard errors, with no fallback; the legacy cdns.go
domain decoder instead decodes 3 fields as lhs/type/rhs with a zero ttl and
4 fields with a bare unsigned-integer ttl, and errors on any other count. -/
theorem C2_record_decoder_shapes :
    (∀ (l ty r : List Nat) (n : Nat),
      CardanoDnsDomainRecord.unmarshalCBOR
        (.constr 1 [.bytes l, .constr 0 [.uint n], .bytes ty, .bytes r]) =
        .ok ⟨l, ⟨n, true⟩, ty, r⟩) ∧
    (∀ (l ty r : List Nat),
      CardanoDnsDomainRecord.unmarshalCBOR
        (.constr 1 [.bytes l, .constr 1 [], .bytes ty, .bytes r]) =
        .ok ⟨l, ⟨0, false⟩, ty, r⟩) ∧
    (∀ (l ty r : List Nat) (n : Nat), ∃ e,
      CardanoDnsDomainRecord.unmarshalCBOR
        (.constr 1 [.bytes l, .uint n, .bytes ty, .bytes r]) = .error e) ∧
    (∀ fs : List CborValue, fs.length ≠ 4 → ∃ e,
      CardanoDnsDomainRecord.unmarshalCBOR (.constr 1 fs) = .error e) ∧
    (∀ (l ty r : List Nat),
      legacyRecordFromFields [.bytes l, .bytes ty, .bytes r] = .ok ⟨l, 0, ty, r⟩) ∧
    (∀ (l ty r : List Nat) (n : Nat),
      legacyRecordFromFields [.bytes l, .uint n, .bytes ty, .bytes r] =
        .ok ⟨l, n, ty, r⟩) ∧
    (∀ fs : List CborValue, fs.length ≠ 3 → fs.length ≠ 4 → ∃ e,
      legacyRecordFromFields fs = .error e) := by
  refine ⟨fun l ty r n => rfl, fun l ty r => rfl, fun l ty r n => ⟨_, rfl⟩,
          ?_, fun l ty r => rfl, fun l ty r n => rfl, ?_⟩
  · intro fs hlen
    rcases fs with _ | ⟨a, _ | ⟨b, _ | ⟨c, _ | ⟨d, _ | ⟨e, rest⟩⟩⟩⟩⟩
    · exact ⟨_, rfl⟩
    · exact ⟨_, rfl⟩
    · exact ⟨_, rfl⟩
    · exact ⟨_, rfl⟩
    · simp at hlen
    · exact ⟨_, rfl⟩
  · intro fs h3 h4
    rcases fs with _ | ⟨a, _ | ⟨b, _ | ⟨c, _ | ⟨d, _ | ⟨e, rest⟩⟩⟩⟩⟩
    · exact ⟨_, rfl⟩
    · exact ⟨_, rfl⟩
    · exact ⟨_, rfl⟩
    · simp at h3
    · simp at h4
    · exact ⟨_, rfl⟩

/-- Closed instance of the amended C2 at empty field lists. -/
theorem C2_record_decoder_shapes_witness :
    (∃ e, CardanoDnsDomainRecord.unmarshalCBOR (.constr 1 []) = .error e) ∧
    (∃ e, legacyRecordFromFields [] = .error e) :=
  ⟨C2_record_decoder_shapes.2.2.2.1 [] (by decide),
   C2_record_decoder_shapes.2.2.2.2.2.2 [] (by decide) (by decide)⟩

/-- C4: version-1 keys are emitted as UTF-8 text, version-2 hex-text keys as
the decoded raw bytes, and decoding the emitted key back under the same
version reproduces the original hex-text key. -/
theorem C4_versioned_keys :
    encodeKeyV 1 "foo" = .text "foo" ∧
    encodeKeyV 2 "706f6c696379" = .bytes (strBytes "policy") ∧
    decodeKeyV 1 (encodeKeyV 1 "foo") = .ok "foo" ∧
    decodeKeyV 2 (encodeKeyV 2 "706f6c696379") = .ok "706f6c696379" :=
  ⟨rfl, by rfl, rfl, by rfl⟩

/-! ## Validation boundaries (C9) -/

theorem parseGoFloat_one_one : parseGoFloat "1.1" = some ((11 : Rat) / 10) := by
  have hd : "1.1".data = ['1', '.', '1'] := rfl
  simp [parseGoFloat, hd, splitAtDot, decDigitsVal]
  norm_num

theorem parseGoFloat_neg_zero_one : parseGoFloat "-0.1" = some (-((1 : Rat) / 10)) := by
  have hd : "-0.1".data = ['-', '0', '.', '1'] := rfl
  simp [parseGoFloat, hd, splitAtDot, decDigitsVal]

theorem parseGoFloat_one_zero : parseGoFloat "1.0" = some 1 := by
  have hd : "1.0".data = ['1', '.', '0'] := rfl
  simp [parseGoFloat, hd, splitAtDot, decDigitsVal]

/-- C9: the royalty validator rejects rates 1.1 and -0.1 and accepts 1.0
(with an address present), and the comment validator rejects any message of
65 characters and accepts message lists whose entries all have at most 64
characters. -/
theorem C9_validation_boundaries :
    (∃ e, Cip27Metadata.Validate ⟨⟨"1.1", none, none, ⟨["addr1"]⟩⟩⟩ = .error e) ∧
    (∃ e, Cip27Metadata.Validate ⟨⟨"-0.1", none, none, ⟨["addr1"]⟩⟩⟩ = .error e) ∧
    Cip27Metadata.Validate ⟨⟨"1.0", none, none, ⟨["addr1"]⟩⟩⟩ = .ok () ∧
    (∀ c : Cip20Metadata, (∃ m ∈ c.Num674.Msg, m.length = 65) →
      ∃ e, c.Validate = .error e) ∧
    (∀ c : Cip20Metadata, c.Num674.Msg ≠ [] →
      (∀ m ∈ c.Num674.Msg, m.length ≤ 64) → c.Validate = .ok ()) := by
  refine ⟨?_, ?_, ?_, ?_, ?_⟩
  · exact ⟨"rate must be between 0.0 and 1.0", by
      norm_num [Cip27Metadata.Validate, Cip777.isZero, parseGoFloat_one_one]⟩
  · exact ⟨"rate must be between 0.0 and 1.0", by
      norm_num [Cip27Metadata.Validate, Cip777.isZero, parseGoFloat_neg_zero_one]⟩
  · norm_num [Cip27Metadata.Validate, Cip777.isZero, parseGoFloat_one_zero]
  · rintro c ⟨m, hm, hlen⟩
    have hne : ¬ c.Num674.Msg.isEmpty := by
      rw [List.isEmpty_iff]
      rintro hnil
      rw [hnil] at hm
      exact absurd hm (List.not_mem_nil m)
    unfold Cip20Metadata.Validate
    rw [if_neg hne]
    have hfind : (c.Num674.Msg.find? (fun m => m.length > 64)).isSome :=
      List.find?_isSome.mpr ⟨m, hm, by simp [hlen]⟩
    rcases hsome : c.Num674.Msg.find? (fun m => m.length > 64) with _ | x
    · rw [hsome] at hfind
      exact absurd hfind (by simp)
    · rw [hsome]
      exact ⟨_, rfl⟩
  · intro c hne hall
    unfold Cip20Metadata.Validate
    rw [if_neg (by rwa [List.isEmpty_iff]),
        List.find?_eq_none.mpr (fun x hx => by simpa using hall x hx)]

/-- Closed instance of C9's universally quantified comment-validator parts. -/
theorem C9_validation_boundaries_witness :
    (∃ e, Cip20Metadata.Validate ⟨⟨[String.mk (List.replicate 65 'a')]⟩⟩ = .error e) ∧
    Cip20Metadata.Validate ⟨⟨["ok"]⟩⟩ = .ok () :=
  ⟨C9_validation_boundaries.2.2.2.1 ⟨⟨[String.mk (List.replicate 65 'a')]⟩⟩
      ⟨String.mk (List.replicate 65 'a'), by simp, by decide⟩,
   C9_validation_boundaries.2.2.2.2 ⟨⟨["ok"]⟩⟩ (by decide)
      (fun m hm => by
        rw [List.mem_singleton] at hm
        subst hm
        decide)⟩

/-! ## The Num721 version field (C5) -/

theorem exceptBind_ok {ε α β : Type} (a : α) (f : α → Except ε β) :
    (Except.ok a >>= f) = f a := rfl

theorem exceptBind_err {ε α β : Type} (e : ε) (f : α → Except ε β) :
    ((Except.error e : Except ε α) >>= f) = Except.error e := rfl

theorem akeys_map_entry {β γ : Type} (l : List (String × β))
    (f : String × β → γ) :
    akeys (l.map (fun kv => (kv.1, f kv))) = akeys l := by
  induction l with
  | nil => rfl
  | cons kv rest ih => simp_all [akeys]

theorem mem_akeys_sortPairs {β : Type} (l : List (String × β)) (k : String) :
    k ∈ akeys (sortPairs l) ↔ k ∈ akeys l :=
  ((sortPairs_perm l).map Prod.fst).mem_iff

/-- C5 as stated is false: the JSON decoder has no upper bound on the
version — an object with version 101 decodes without error. -/
theorem C5_counterexample :
    Num721.unmarshalJSON (.obj [("version", .num 101)]) = .ok ⟨101, []⟩ ∧
    ¬∃ e, Num721.unmarshalJSON (.obj [("version", .num 101)]) = .error e := by
  refine ⟨by rfl, ?_⟩
  rintro ⟨e, h⟩
  rw [show Num721.unmarshalJSON (.obj [("version", .num 101)]) = .ok ⟨101, []⟩
      from by rfl] at h
  exact Except.noConfusion h

/-- C5 amended: a decode with no version entry produces Version 1 (JSON and
CBOR); the CBOR decoder rejects an unsigned version above 100, while the
JSON decoder applies no upper bound (a numeric version decodes to its
truncated value); an encode emits a version entry if and only if Version is
not 1 (JSON and CBOR), provided no policy key is the reserved "version". -/
theorem C5_version_field :
    (∀ (raw : List (String × JsonValue)) (n : Num721),
      alookup raw "version" = none →
      Num721.unmarshalJSON (.obj raw) = .ok n → n.Version = 1) ∧
    (∀ (raw : List (CborValue × CborValue)) (n : Num721),
      clookup raw "version" = none →
      Num721.unmarshalCBOR (.map raw) = .ok n → n.Version = 1) ∧
    (∀ (raw : List (CborValue × CborValue)) (v : Nat),
      clookup raw "version" = some (.uint v) → v > 100 →
      Num721.unmarshalCBOR (.map raw) = .error "version number too large") ∧
    (∀ (raw : List (String × JsonValue)) (n : Num721) (q : Rat),
      alookup raw "version" = some (.num q) →
      Num721.unmarshalJSON (.obj raw) = .ok n → n.Version = goTruncInt q) ∧
    (∀ n : Num721, "version" ∉ akeys n.Policies →
      ("version" ∈ akeys (jsonObjEntries n.marshalJSON) ↔ n.Version ≠ 1)) ∧
    (∀ n : Num721, "version" ∉ akeys n.Policies →
      (CborValue.text "version" ∈ (cborMapEntries n.marshalCBOR).map Prod.fst ↔
        n.Version ≠ 1)) := by
  refine ⟨?_, ?_, ?_, ?_, ?_, ?_⟩
  · intro raw n hlook h
    simp only [Num721.unmarshalJSON] at h
    rcases hp : decodePoliciesJSON raw with e | pols <;> rw [hp] at h
    · exact Except.noConfusion h
    · rw [exceptBind_ok] at h
      cases h
      simp [num721VersionJSON, hlook]
  · intro raw n hlook h
    simp only [Num721.unmarshalCBOR, num721VersionScanCBOR, hlook] at h
    rw [exceptBind_ok] at h
    rcases hp : decodePoliciesCBOR (if (0 : Int) = 0 then 1 else 0) raw
        with e | pols <;> rw [hp] at h
    · exact Except.noConfusion h
    · rw [exceptBind_ok] at h
      cases h
      rfl
  · intro raw v hlook hv
    simp only [Num721.unmarshalCBOR, num721VersionScanCBOR, hlook]
    rw [if_pos hv]
    rfl
  · intro raw n q hlook h
    simp only [Num721.unmarshalJSON] at h
    rcases hp : decodePoliciesJSON raw with e | pols <;> rw [hp] at h
    · exact Except.noConfusion h
    · rw [exceptBind_ok] at h
      cases h
      simp [num721VersionJSON, hlook]
  · intro n hv
    simp only [Num721.marshalJSON, jsonObjEntries]
    rw [mem_akeys_sortPairs, akeys_append, List.mem_append, akeys_map_entry]
    by_cases hV : n.Version = 1
    · rw [if_neg (by simp [hV])]
      constructor
      · rintro (h | h)
        · exact absurd h (List.not_mem_nil _)
        · exact absurd h hv
      · intro hne
        exact absurd hV hne
    · rw [if_pos hV]
      constructor
      · intro _
        exact hV
      · intro _
        exact Or.inl (by simp [akeys])
  · intro n hv
    simp only [Num721.marshalCBOR, cborMapEntries]
    rw [List.map_append, List.mem_append]
    have hpol : CborValue.text "version" ∉
        ((sortPairs n.Policies).map (fun kv =>
          (encodeKeyV n.Version kv.1,
           CborValue.map ((sortPairs kv.2).map (fun akv =>
             (encodeKeyV n.Version akv.1, akv.2.marshalCBOR)))))).map Prod.fst := by
      intro hmem
      rw [List.map_map, List.mem_map] at hmem
      rcases hmem with ⟨kv, hkv, henc⟩
      have hk : kv.1 ∈ akeys n.Policies := by
        rw [← mem_akeys_sortPairs]
        exact List.mem_map_of_mem Prod.fst hkv
      simp only [Function.comp] at henc
      unfold encodeKeyV at henc
      by_cases h2 : n.Version = 2
      · rw [if_pos h2] at henc
        rcases hhex : hexDecode kv.1 with _ | b <;> rw [hhex] at henc <;>
          exact CborValue.noConfusion henc
      · rw [if_neg h2] at henc
        rw [CborValue.text.injEq] at henc
        rw [henc] at hk
        exact hv hk
    by_cases hV : n.Version = 1
    · rw [if_neg (by simp [hV])]
      constructor
      · rintro (h | h)
        · exact absurd h (List.not_mem_nil _)
        · exact absurd h hpol
      · intro hne
        exact absurd hV hne
    · rw [if_pos hV]
      constructor
      · intro _
        exact hV
      · intro _
        exact Or.inl (by simp)

/-- Closed instance of the amended C5 at concrete inputs. -/
theorem C5_version_field_witness :
    (∀ n : Num721, Num721.unmarshalJSON (.obj []) = .ok n → n.Version = 1) ∧
    Num721.unmarshalCBOR (.map [(.text "version", .uint 101)]) =
      .error "version number too large" :=
  ⟨fun n => C5_version_field.1 [] n rfl,
   C5_version_field.2.2.1 [(.text "version", .uint 101)] 101 rfl (by decide)⟩

/-! ## The asset-metadata output map (C6) -/

theorem alookup_minsert {β : Type} (l : List (String × β)) (k : String) (v : β)
    (k' : String) :
    alookup (minsert l k v) k' = if k = k' then some v else alookup l k' := by
  induction l with
  | nil => simp [minsert, alookup]
  | cons kv rest ih =>
      rcases kv with ⟨k0, v0⟩
      by_cases h0 : k0 = k
      · subst h0
        simp only [minsert, if_pos rfl]
        by_cases h1 : k0 = k' <;> simp [alookup, h1]
      · simp only [minsert, if_neg h0]
        by_cases h1 : k0 = k'
        · subst h1
          rw [if_neg (fun hh => h0 hh.symm)]
          simp [alookup]
        · simp [alookup, h1, ih]

theorem mem_akeys_minsert {β : Type} (l : List (String × β)) (k : String)
    (v : β) (x : String) :
    x ∈ akeys (minsert l k v) ↔ x ∈ akeys l ∨ x = k := by
  induction l with
  | nil => simp [minsert, akeys]
  | cons kv rest ih =>
      rcases kv with ⟨k0, v0⟩
      by_cases h0 : k0 = k
      · subst h0
        simp only [minsert, if_pos rfl]
        simp [akeys_cons, akeys]
        tauto
      · simp only [minsert, if_neg h0]
        simp [akeys_cons, ih]
        tauto

theorem minsert_nodup {β : Type} {l : List (String × β)} (k : String) (v : β)
    (hnd : (akeys l).Nodup) : (akeys (minsert l k v)).Nodup := by
  induction l with
  | nil => simp [minsert, akeys]
  | cons kv rest ih =>
      rcases kv with ⟨k0, v0⟩
      rw [akeys_cons, List.nodup_cons] at hnd
      by_cases h0 : k0 = k
      · subst h0
        rw [show minsert ((k0, v0) :: rest) k0 v = (k0, v) :: rest from by
          simp [minsert]]
        rw [akeys_cons, List.nodup_cons]
        exact hnd
      · simp only [minsert, if_neg h0]
        rw [akeys_cons, List.nodup_cons]
        refine ⟨?_, ih hnd.2⟩
        rw [mem_akeys_minsert]
        rintro (h | h)
        · exact hnd.1 h
        · exact h0 h

theorem foldl_minsert_nodup {β : Type} (ext : List (String × β))
    (base : List (String × β)) (hnd : (akeys base).Nodup) :
    (akeys (ext.foldl (fun m kv => minsert m kv.1 kv.2) base)).Nodup := by
  induction ext generalizing base with
  | nil => exact hnd
  | cons kv rest ih =>
      simp only [List.foldl_cons]
      exact ih (minsert base kv.1 kv.2) (minsert_nodup kv.1 kv.2 hnd)

theorem alookup_foldl_minsert {β : Type} (ext : List (String × β))
    (base : List (String × β)) (hnd : (akeys ext).Nodup) (k : String) :
    alookup (ext.foldl (fun m kv => minsert m kv.1 kv.2) base) k =
      (alookup ext k).or (alookup base k) := by
  induction ext generalizing base with
  | nil => simp [alookup, Option.or]
  | cons kv rest ih =>
      rcases kv with ⟨k0, v0⟩
      rw [akeys_cons, List.nodup_cons] at hnd
      simp only [List.foldl_cons]
      rw [ih (minsert base k0 v0) hnd.2]
      rw [alookup_minsert]
      by_cases h0 : k0 = k
      · subst h0
        rw [if_pos rfl]
        rw [alookup_eq_none_of_not_mem hnd.1]
        simp [alookup, Option.or]
      · rw [if_neg h0]
        simp only [alookup, if_neg h0]

theorem typedJSON_akeys_nodup (a : AssetMetadata) :
    (akeys a.typedJSON).Nodup := by
  unfold AssetMetadata.typedJSON
  by_cases h1 : a.MediaType ≠ "" <;>
    by_cases h2 : a.Description.Descriptions.length > 0 <;>
      by_cases h3 : a.Files.length > 0 <;>
        simp [h1, h2, h3, akeys]

theorem typedJSON_name (a : AssetMetadata) :
    alookup a.typedJSON "name" = some (.str a.Name) := rfl

theorem typedJSON_image (a : AssetMetadata) :
    alookup a.typedJSON "image" = some a.Image.marshalJSON := rfl

theorem typedJSON_mediaType (a : AssetMetadata) :
    alookup a.typedJSON "mediaType" =
      if a.MediaType ≠ "" then some (.str a.MediaType) else none := by
  unfold AssetMetadata.typedJSON
  by_cases h1 : a.MediaType ≠ "" <;>
    by_cases h2 : a.Description.Descriptions.length > 0 <;>
      by_cases h3 : a.Files.length > 0 <;>
        simp [h1, h2, h3, alookup]

theorem typedJSON_description (a : AssetMetadata) :
    alookup a.typedJSON "description" =
      if a.Description.Descriptions.length > 0 then
        some a.Description.marshalJSON else none := by
  unfold AssetMetadata.typedJSON
  by_cases h1 : a.MediaType ≠ "" <;>
    by_cases h2 : a.Description.Descriptions.length > 0 <;>
      by_cases h3 : a.Files.length > 0 <;>
        simp [h1, h2, h3, alookup]

theorem typedJSON_files (a : AssetMetadata) :
    alookup a.typedJSON "files" =
      if a.Files.length > 0 then
        some (.arr (a.Files.map FileDetails.marshalJSON)) else none := by
  unfold AssetMetadata.typedJSON
  by_cases h1 : a.MediaType ≠ "" <;>
    by_cases h2 : a.Description.Descriptions.length > 0 <;>
      by_cases h3 : a.Files.length > 0 <;>
        simp [h1, h2, h3, alookup]

theorem alookup_marshalJSON (a : AssetMetadata) (hnd : (akeys a.Extra).Nodup)
    (k : String) :
    alookup (jsonObjEntries a.marshalJSON) k =
      (alookup a.Extra k).or (alookup a.typedJSON k) := by
  simp only [AssetMetadata.marshalJSON, jsonObjEntries]
  rw [alookup_sortPairs _ (foldl_minsert_nodup a.Extra a.typedJSON
        (typedJSON_akeys_nodup a))]
  exact alookup_foldl_minsert a.Extra a.typedJSON hnd k

/-- C6 as stated is false: an Extra entry under the typed key "name"
overwrites the typed value in the encoded object. -/
theorem C6_counterexample :
    c6asset.Name = "a" ∧
    alookup (jsonObjEntries c6asset.marshalJSON) "name" = some (.str "b") ∧
    JsonValue.str "b" ≠ JsonValue.str "a" :=
  ⟨rfl, by rfl, by simp⟩

/-- C6 amended: MarshalJSON emits the typed fields and then merges Extra,
with Extra entries overwriting the typed keys on collision: each of the five
typed keys in the encoded object carries the Extra value when Extra binds
that key, and the typed field value (under its emission condition)
otherwise. -/
theorem C6_marshal_extra_merge (a : AssetMetadata)
    (hnd : (akeys a.Extra).Nodup) :
    alookup (jsonObjEntries a.marshalJSON) "name" =
      (alookup a.Extra "name").or (some (.str a.Name)) ∧
    alookup (jsonObjEntries a.marshalJSON) "image" =
      (alookup a.Extra "image").or (some a.Image.marshalJSON) ∧
    alookup (jsonObjEntries a.marshalJSON) "mediaType" =
      (alookup a.Extra "mediaType").or
        (if a.MediaType ≠ "" then some (.str a.MediaType) else none) ∧
    alookup (jsonObjEntries a.marshalJSON) "description" =
      (alookup a.Extra "description").or
        (if a.Description.Descriptions.length > 0 then
          some a.Description.marshalJSON else none) ∧
    alookup (jsonObjEntries a.marshalJSON) "files" =
      (alookup a.Extra "files").or
        (if a.Files.length > 0 then
          some (.arr (a.Files.map FileDetails.marshalJSON)) else none) := by
  refine ⟨?_, ?_, ?_, ?_, ?_⟩
  · rw [alookup_marshalJSON a hnd, typedJSON_name]
  · rw [alookup_marshalJSON a hnd, typedJSON_image]
  · rw [alookup_marshalJSON a hnd, typedJSON_mediaType]
  · rw [alookup_marshalJSON a hnd, typedJSON_description]
  · rw [alookup_marshalJSON a hnd, typedJSON_files]

/-- Closed instance of the amended C6 at `c6asset`. -/
theorem C6_marshal_extra_merge_witness :
    alookup (jsonObjEntries c6asset.marshalJSON) "name" =
      (alookup c6asset.Extra "name").or (some (.str c6asset.Name)) :=
  (C6_marshal_extra_merge c6asset (by simp [c6asset, akeys])).1

/-! ## Non-object policy entries in the JSON decoder (C10) -/

theorem mem_akeys_of_mem {β : Type} {l : List (String × β)} {k : String}
    {v : β} (h : (k, v) ∈ l) : k ∈ akeys l :=
  List.mem_map_of_mem Prod.fst h

theorem decodePoliciesJSON_cons_version (v0 : JsonValue)
    (rest : List (String × JsonValue)) :
    decodePoliciesJSON (("version", v0) :: rest) = decodePoliciesJSON rest := by
  simp [decodePoliciesJSON]

theorem decodePoliciesJSON_cons_skip {k0 : String} {v0 : JsonValue}
    (h : isObjV v0 = false) (rest : List (String × JsonValue)) :
    decodePoliciesJSON ((k0, v0) :: rest) = decodePoliciesJSON rest := by
  by_cases hk : k0 = "version"
  · subst hk
    exact decodePoliciesJSON_cons_version v0 rest
  · rcases v0 with _ | b | q | s | xs | pm
    · simp [decodePoliciesJSON, hk]
    · simp [decodePoliciesJSON, hk]
    · simp [decodePoliciesJSON, hk]
    · simp [decodePoliciesJSON, hk]
    · simp [decodePoliciesJSON, hk]
    · exact Bool.noConfusion h

theorem decodePoliciesJSON_cons_obj {k0 : String} (h : k0 ≠ "version")
    (pm rest : List (String × JsonValue)) :
    decodePoliciesJSON ((k0, .obj pm) :: rest) =
      (do
        let assets ← decodeAssetsJSON pm
        let others ← decodePoliciesJSON rest
        Except.ok ((k0, sortPairs assets) :: others)) := by
  simp [decodePoliciesJSON, h]

theorem alookup_of_mem_nodup {β : Type} {l : List (String × β)} {k : String}
    {v : β} (hnd : (akeys l).Nodup) (hmem : (k, v) ∈ l) :
    alookup l k = some v := by
  induction l with
  | nil => exact absurd hmem (List.not_mem_nil _)
  | cons kv rest ih =>
      rcases kv with ⟨k0, v0⟩
      rw [akeys_cons, List.nodup_cons] at hnd
      rcases List.mem_cons.mp hmem with he | hmem'
      · rw [Prod.ext_iff] at he
        obtain ⟨he1, he2⟩ := he
        subst he1
        subst he2
        simp [alookup]
      · have hk0 : k0 ≠ k := fun hh => hnd.1 (hh ▸ mem_akeys_of_mem hmem')
        simp only [alookup]
        rw [if_neg hk0]
        exact ih hnd.2 hmem'

theorem alookup_filter_ne {β : Type} (l : List (String × β)) (k k' : String)
    (h : k' ≠ k) :
    alookup (l.filter (fun kv => kv.1 != k)) k' = alookup l k' := by
  induction l with
  | nil => rfl
  | cons kv rest ih =>
      rcases kv with ⟨k0, v0⟩
      by_cases h0 : k0 = k
      · subst h0
        rw [List.filter_cons_of_neg (by simp)]
        rw [ih]
        simp only [alookup]
        rw [if_neg (fun hh => h hh.symm)]
      · rw [List.filter_cons_of_pos (by simp [h0])]
        simp only [alookup]
        by_cases h1 : k0 = k' <;> simp [h1, ih]

theorem decodePoliciesJSON_filter {k : String} {v : JsonValue}
    (raw : List (String × JsonValue)) (hnd : (akeys raw).Nodup)
    (hmem : (k, v) ∈ raw) (hobj : isObjV v = false) :
    decodePoliciesJSON raw =
      decodePoliciesJSON (raw.filter (fun kv => kv.1 != k)) := by
  induction raw with
  | nil => exact absurd hmem (List.not_mem_nil _)
  | cons kv rest ih =>
      rcases kv with ⟨k0, v0⟩
      rw [akeys_cons, List.nodup_cons] at hnd
      rcases List.mem_cons.mp hmem with he | hmem'
      · rw [Prod.ext_iff] at he
        obtain ⟨he1, he2⟩ := he
        subst he1
        subst he2
        rw [List.filter_cons_of_neg (by simp)]
        rw [List.filter_eq_self.mpr (fun x hx => by
          rw [bne_iff_ne, ne_eq]
          intro hxk
          exact hnd.1 (hxk ▸ mem_akeys_of_mem (v := x.2) (by simpa using hx)))]
        exact decodePoliciesJSON_cons_skip hobj rest
      · have hk0 : k0 ≠ k := fun hh => hnd.1 (hh ▸ mem_akeys_of_mem hmem')
        rw [List.filter_cons_of_pos (by simp [hk0])]
        by_cases hv0 : k0 = "version"
        · subst hv0
          rw [decodePoliciesJSON_cons_version, decodePoliciesJSON_cons_version]
          exact ih hnd.2 hmem'
        · by_cases hov : isObjV v0 = false
          · rw [decodePoliciesJSON_cons_skip hov, decodePoliciesJSON_cons_skip hov]
            exact ih hnd.2 hmem'
          · rcases v0 with _ | b | q | s | xs | pm <;> simp [isObjV] at hov
            rw [decodePoliciesJSON_cons_obj hv0, decodePoliciesJSON_cons_obj hv0]
            rw [ih hnd.2 hmem']

theorem decodePoliciesJSON_keys (raw : List (String × JsonValue))
    (pols : List (String × List (String × AssetMetadata)))
    (h : decodePoliciesJSON raw = .ok pols) (k : String)
    (hk : k ∈ akeys pols) : ∃ v, (k, v) ∈ raw ∧ isObjV v = true := by
  induction raw generalizing pols with
  | nil =>
      simp only [decodePoliciesJSON] at h
      cases h
      exact absurd hk (List.not_mem_nil _)
  | cons kv rest ih =>
      rcases kv with ⟨k0, v0⟩
      by_cases hov : isObjV v0 = false
      · rw [decodePoliciesJSON_cons_skip hov] at h
        rcases ih pols h hk with ⟨v, hv1, hv2⟩
        exact ⟨v, List.mem_cons_of_mem _ hv1, hv2⟩
      · rcases v0 with _ | b | q | s | xs | pm <;> simp [isObjV] at hov
        by_cases hv0 : k0 = "version"
        · subst hv0
          rw [decodePoliciesJSON_cons_version] at h
          rcases ih pols h hk with ⟨v, hv1, hv2⟩
          exact ⟨v, List.mem_cons_of_mem _ hv1, hv2⟩
        · rw [decodePoliciesJSON_cons_obj hv0] at h
          rcases ha : decodeAssetsJSON pm with e | assets <;> rw [ha] at h
          · rw [exceptBind_err] at h
            exact Except.noConfusion h
          · rw [exceptBind_ok] at h
            rcases hr : decodePoliciesJSON rest with e | others <;> rw [hr] at h
            · rw [exceptBind_err] at h
              exact Except.noConfusion h
            · rw [exceptBind_ok] at h
              cases h
              rw [akeys_cons] at hk
              rcases List.mem_cons.mp hk with he | hmem'
              · exact ⟨.obj pm, List.mem_cons.mpr (Or.inl (by rw [he])), rfl⟩
              · rcases ih others hr hmem' with ⟨v, hv1, hv2⟩
                exact ⟨v, List.mem_cons_of_mem _ hv1, hv2⟩

/-- C10 as stated is false: the decode need not succeed — an unrelated
malformed policy entry still fails the whole decode even though the
non-object entry itself would be skipped. -/
theorem C10_counterexample :
    (("p", JsonValue.num 1) ∈
      [("p", JsonValue.num 1),
       ("q", JsonValue.obj [("a", JsonValue.obj [("image", JsonValue.bool true)])])] ∧
     isObjV (JsonValue.num 1) = false ∧ "p" ≠ "version") ∧
    Num721.unmarshalJSON (.obj
      [("p", JsonValue.num 1),
       ("q", JsonValue.obj [("a", JsonValue.obj [("image", JsonValue.bool true)])])]) =
      .error "URI field must be a string or an array of strings" :=
  ⟨⟨by simp, rfl, by decide⟩, by rfl⟩

/-- C10 amended: a non-object entry under a key other than "version" is
silently dropped — decoding behaves exactly as if the entry were absent
(so it never causes an error by itself), and whenever decoding succeeds the
resulting Policies map has no entry for that key. -/
theorem C10_nonobject_policy (raw : List (String × JsonValue)) (k : String)
    (v : JsonValue) (hnd : (akeys raw).Nodup) (hmem : (k, v) ∈ raw)
    (hobj : isObjV v = false) (hver : k ≠ "version") :
    Num721.unmarshalJSON (.obj raw) =
      Num721.unmarshalJSON (.obj (raw.filter (fun kv => kv.1 != k))) ∧
    ∀ n, Num721.unmarshalJSON (.obj raw) = .ok n →
      alookup n.Policies k = none := by
  constructor
  · simp only [Num721.unmarshalJSON]
    rw [← decodePoliciesJSON_filter raw hnd hmem hobj]
    have hv : num721VersionJSON (raw.filter (fun kv => kv.1 != k)) =
        num721VersionJSON raw := by
      unfold num721VersionJSON
      rw [alookup_filter_ne raw k "version" (fun hh => hver hh.symm)]
    rw [hv]
  · intro n h
    simp only [Num721.unmarshalJSON] at h
    rcases hp : decodePoliciesJSON raw with e | pols <;> rw [hp] at h
    · exact Except.noConfusion h
    · rw [exceptBind_ok] at h
      cases h
      apply alookup_eq_none_of_not_mem
      rw [mem_akeys_sortPairs]
      intro hkmem
      rcases decodePoliciesJSON_keys raw pols hp k hkmem with ⟨v', hv'mem, hv'obj⟩
      have h1 := alookup_of_mem_nodup hnd hmem
      have h2 := alookup_of_mem_nodup hnd hv'mem
      rw [h1] at h2
      injection h2 with h3
      rw [← h3] at hv'obj
      rw [hv'obj] at hobj
      exact Bool.noConfusion hobj

/-- Closed instance of the amended C10. -/
theorem C10_nonobject_policy_witness :
    Num721.unmarshalJSON (.obj [("p", JsonValue.num 1)]) =
      Num721.unmarshalJSON (.obj ([("p", JsonValue.num 1)].filter
        (fun kv => kv.1 != "p"))) :=
  (C10_nonobject_policy [("p", JsonValue.num 1)] "p" (JsonValue.num 1)
    (by simp [akeys]) (by simp) rfl (by decide)).1

/-! ## Round trip of the CIP-25 JSON codec (C1) -/

theorem uri_json_roundtrip_val (u : UriField) (h : u.Uris ≠ []) :
    UriField.unmarshalJSON u.marshalJSON = .ok u :=
  uri_json_roundtrip u.Uris h

theorem uri_cbor_roundtrip_val (u : UriField) (h : u.Uris ≠ []) :
    UriField.unmarshalCBOR u.marshalCBOR = .ok u :=
  uri_cbor_roundtrip u.Uris h

theorem desc_json_roundtrip_val (d : DescField) (h : d.Descriptions ≠ []) :
    DescField.unmarshalJSON d.marshalJSON = .ok d :=
  desc_json_roundtrip d.Descriptions h

theorem desc_cbor_roundtrip_val (d : DescField) (h : d.Descriptions ≠ []) :
    DescField.unmarshalCBOR d.marshalCBOR = .ok d :=
  desc_cbor_roundtrip d.Descriptions h

theorem file_json_roundtrip (f : FileDetails) (hwf : f.wfJSON) :
    FileDetails.unmarshalJSON f.marshalJSON = .ok f := by
  obtain ⟨hext, hsrc⟩ := hwf
  rcases f with ⟨fn, fm, fs, fe⟩
  simp only at hext
  subst hext
  simp [FileDetails.marshalJSON, FileDetails.unmarshalJSON, alookup,
        uri_json_roundtrip_val fs hsrc, dropKeys, fileTypedKeys, sortPairs,
        List.insertionSort]

theorem filesMapM_json_roundtrip (fs : List FileDetails)
    (h : ∀ f ∈ fs, f.wfJSON) :
    (fs.map FileDetails.marshalJSON).mapM FileDetails.unmarshalJSON = .ok fs := by
  induction fs with
  | nil => rfl
  | cons f rest ih =>
      simp only [List.map_cons, List.mapM_cons]
      rw [file_json_roundtrip f (h f (by simp))]
      rw [ih (fun x hx => h x (by simp [hx]))]
      rfl

theorem typedJSON_keys_mem (a : AssetMetadata) :
    ∀ k ∈ akeys a.typedJSON, k ∈ assetTypedKeys := by
  unfold AssetMetadata.typedJSON
  by_cases h1 : a.MediaType ≠ "" <;>
    by_cases h2 : a.Description.Descriptions.length > 0 <;>
      by_cases h3 : a.Files.length > 0 <;>
        simp_all [akeys, assetTypedKeys]

theorem asset_json_roundtrip (a : AssetMetadata) (hwf : a.wfJSON) :
    AssetMetadata.unmarshalJSON a.marshalJSON = .ok a := by
  obtain ⟨hsort, hdis, himg, hfls⟩ := hwf
  have hndE : (akeys a.Extra).Nodup := hsort.nodup_akeys
  have hndT : (akeys a.typedJSON).Nodup := typedJSON_akeys_nodup a
  have hdisT : ∀ k ∈ akeys a.Extra, k ∉ akeys a.typedJSON :=
    fun k hk hmem => hdis k hk (typedJSON_keys_mem a k hmem)
  have hlook : ∀ k, alookup (sortPairs (a.Extra.foldl
      (fun m kv => minsert m kv.1 kv.2) a.typedJSON)) k =
      (alookup a.Extra k).or (alookup a.typedJSON k) :=
    alookup_marshalJSON a hndE
  have hEnone : ∀ k, k ∈ assetTypedKeys → alookup a.Extra k = none :=
    fun k hk => alookup_eq_none_of_not_mem (fun hmem => hdis k hmem hk)
  have h1 : alookup (sortPairs (a.Extra.foldl
      (fun m kv => minsert m kv.1 kv.2) a.typedJSON)) "name" =
      some (.str a.Name) := by
    rw [hlook, hEnone "name" (by decide), typedJSON_name]
    rfl
  have h2 : alookup (sortPairs (a.Extra.foldl
      (fun m kv => minsert m kv.1 kv.2) a.typedJSON)) "image" =
      some a.Image.marshalJSON := by
    rw [hlook, hEnone "image" (by decide), typedJSON_image]
    rfl
  have h3 : alookup (sortPairs (a.Extra.foldl
      (fun m kv => minsert m kv.1 kv.2) a.typedJSON)) "mediaType" =
      if a.MediaType ≠ "" then some (.str a.MediaType) else none := by
    rw [hlook, hEnone "mediaType" (by decide), typedJSON_mediaType]
    rfl
  have h4 : alookup (sortPairs (a.Extra.foldl
      (fun m kv => minsert m kv.1 kv.2) a.typedJSON)) "description" =
      if a.Description.Descriptions.length > 0 then
        some a.Description.marshalJSON else none := by
    rw [hlook, hEnone "description" (by decide), typedJSON_description]
    rfl
  have h5 : alookup (sortPairs (a.Extra.foldl
      (fun m kv => minsert m kv.1 kv.2) a.typedJSON)) "files" =
      if a.Files.length > 0 then
        some (.arr (a.Files.map FileDetails.marshalJSON)) else none := by
    rw [hlook, hEnone "files" (by decide), typedJSON_files]
    rfl
  have h6 : sortPairs (dropKeys assetTypedKeys (sortPairs (a.Extra.foldl
      (fun m kv => minsert m kv.1 kv.2) a.typedJSON))) = a.Extra := by
    have hsplit : a.Extra.foldl (fun m kv => minsert m kv.1 kv.2) a.typedJSON =
        a.typedJSON ++ a.Extra :=
      foldl_minsert_append a.Extra a.typedJSON hdisT hndE
    have hndF : (akeys (a.typedJSON ++ a.Extra)).Nodup := by
      rw [akeys_append]
      exact List.Nodup.append hndT hndE (fun k hk1 hk2 => hdisT k hk2 hk1)
    have hfe : dropKeys assetTypedKeys (a.typedJSON ++ a.Extra) = a.Extra := by
      unfold dropKeys
      rw [List.filter_append]
      rw [List.filter_eq_nil_iff.mpr (fun kv hkv => by
        simp only [Bool.not_eq_true', Bool.not_eq_false]
        simpa using typedJSON_keys_mem a kv.1
          (mem_akeys_of_mem (v := kv.2) (by simpa using hkv)))]
      rw [List.filter_eq_self.mpr (fun kv hkv => by
        simp only [Bool.not_eq_true']
        simpa using fun hmem =>
          hdis kv.1 (mem_akeys_of_mem (v := kv.2) (by simpa using hkv)) hmem)]
      simp
    have hperm : (dropKeys assetTypedKeys (sortPairs (a.typedJSON ++ a.Extra))).Perm
        a.Extra := by
      have hp2 := (sortPairs_perm (a.typedJSON ++ a.Extra)).filter
        (fun kv => !(assetTypedKeys.contains kv.1))
      rw [show (a.typedJSON ++ a.Extra).filter (fun kv => !(assetTypedKeys.contains kv.1)) =
          a.Extra from hfe] at hp2
      exact hp2
    have hdSorted : SortedKeys (dropKeys assetTypedKeys
        (sortPairs (a.typedJSON ++ a.Extra))) :=
      List.Pairwise.filter _ (sortPairs_sortedKeys _ hndF)
    rw [hsplit]
    rw [eq_of_perm_sortedKeys hperm hdSorted hsort, sortPairs_eq_self hsort]
  have hU : UriField.unmarshalJSON a.Image.marshalJSON = .ok a.Image :=
    uri_json_roundtrip_val a.Image himg
  have hFm : (a.Files.map FileDetails.marshalJSON).mapM FileDetails.unmarshalJSON =
      .ok a.Files := filesMapM_json_roundtrip a.Files hfls
  have hFm2 : List.mapM.loop FileDetails.unmarshalJSON
      (a.Files.map FileDetails.marshalJSON) [] = .ok a.Files := hFm
  simp only [AssetMetadata.marshalJSON, AssetMetadata.unmarshalJSON]
  rw [h1, h2, h3, h4, h5, h6]
  conv_rhs => rw [show a = (⟨a.Name, a.Image, a.MediaType, a.Description,
    a.Files, a.Extra⟩ : AssetMetadata) from rfl]
  by_cases hmt : a.MediaType ≠ ""
  · by_cases hd : a.Description.Descriptions.length > 0
    · have hD : DescField.unmarshalJSON a.Description.marshalJSON = .ok a.Description :=
        desc_json_roundtrip_val a.Description (by
          intro hnil
          rw [hnil] at hd
          simp at hd)
      by_cases hf : a.Files.length > 0
      · simp [hmt, hd, hf, hU, hD, hFm, hFm2, exceptBind_ok]
      · have hF0 : a.Files = [] := List.length_eq_zero.mp (by omega)
        simp [hmt, hd, hf, hU, hD, hF0, exceptBind_ok]
    · have hD0 : a.Description = (⟨[]⟩ : DescField) := by
        have h0 : a.Description.Descriptions = [] := List.length_eq_zero.mp (by omega)
        conv_lhs => rw [show a.Description =
          (⟨a.Description.Descriptions⟩ : DescField) from rfl]
        rw [h0]
      by_cases hf : a.Files.length > 0
      · simp [hmt, hd, hf, hU, hD0, hFm, hFm2, exceptBind_ok]
      · have hF0 : a.Files = [] := List.length_eq_zero.mp (by omega)
        simp [hmt, hd, hf, hU, hD0, hF0, exceptBind_ok]
  · have hMT : a.MediaType = "" := not_not.mp hmt
    by_cases hd : a.Description.Descriptions.length > 0
    · have hD : DescField.unmarshalJSON a.Description.marshalJSON = .ok a.Description :=
        desc_json_roundtrip_val a.Description (by
          intro hnil
          rw [hnil] at hd
          simp at hd)
      by_cases hf : a.Files.length > 0
      · simp [hMT, hd, hf, hU, hD, hFm, hFm2, exceptBind_ok]
      · have hF0 : a.Files = [] := List.length_eq_zero.mp (by omega)
        simp [hMT, hd, hf, hU, hD, hF0, exceptBind_ok]
    · have hD0 : a.Description = (⟨[]⟩ : DescField) := by
        have h0 : a.Description.Descriptions = [] := List.length_eq_zero.mp (by omega)
        conv_lhs => rw [show a.Description =
          (⟨a.Description.Descriptions⟩ : DescField) from rfl]
        rw [h0]
      by_cases hf : a.Files.length > 0
      · simp [hMT, hd, hf, hU, hD0, hFm, hFm2, exceptBind_ok]
      · have hF0 : a.Files = [] := List.length_eq_zero.mp (by omega)
        simp [hMT, hd, hf, hU, hD0, hF0, exceptBind_ok]

theorem SortedKeys.map_entry {β γ : Type} {l : List (String × β)}
    (f : String × β → γ) (h : SortedKeys l) :
    SortedKeys (l.map (fun kv => (kv.1, f kv))) := by
  refine List.Pairwise.map _ ?_ h
  intro a b hab
  exact hab

theorem decodeAssetsJSON_of_marshal (assets : List (String × AssetMetadata))
    (h : ∀ a ∈ assets, a.2.wfJSON) :
    decodeAssetsJSON (assets.map (fun akv => (akv.1, akv.2.marshalJSON))) =
      .ok assets := by
  induction assets with
  | nil => rfl
  | cons a rest ih =>
      simp only [List.map_cons, decodeAssetsJSON]
      rw [asset_json_roundtrip a.2 (h a (by simp)), exceptBind_ok]
      rw [ih (fun x hx => h x (by simp [hx])), exceptBind_ok]

theorem decodePoliciesJSON_dropVersion (l : List (String × JsonValue)) :
    decodePoliciesJSON l =
      decodePoliciesJSON (l.filter (fun kv => kv.1 != "version")) := by
  induction l with
  | nil => rfl
  | cons kv rest ih =>
      rcases kv with ⟨k0, v0⟩
      by_cases h0 : k0 = "version"
      · subst h0
        rw [List.filter_cons_of_neg (by simp)]
        rw [decodePoliciesJSON_cons_version, ih]
      · rw [List.filter_cons_of_pos (by simp [h0])]
        by_cases hov : isObjV v0 = false
        · rw [decodePoliciesJSON_cons_skip hov, decodePoliciesJSON_cons_skip hov, ih]
        · rcases v0 with _ | b | q | s | xs | pm <;> simp [isObjV] at hov
          rw [decodePoliciesJSON_cons_obj h0, decodePoliciesJSON_cons_obj h0, ih]

theorem decodePoliciesJSON_of_marshal
    (pols : List (String × List (String × AssetMetadata)))
    (hver : "version" ∉ akeys pols)
    (h : ∀ p ∈ pols, SortedKeys p.2 ∧ ∀ a ∈ p.2, AssetMetadata.wfJSON a.2) :
    decodePoliciesJSON (pols.map (fun kv =>
      (kv.1, JsonValue.obj (sortPairs (kv.2.map (fun akv =>
        (akv.1, akv.2.marshalJSON))))))) = .ok pols := by
  induction pols with
  | nil => rfl
  | cons p rest ih =>
      obtain ⟨hs, has⟩ := h p (by simp)
      have hk : p.1 ≠ "version" := by
        intro hh
        exact hver (by simp [akeys, hh])
      rw [List.map_cons]
      rw [decodePoliciesJSON_cons_obj hk]
      rw [sortPairs_eq_self (SortedKeys.map_entry _ hs)]
      rw [decodeAssetsJSON_of_marshal p.2 has, exceptBind_ok]
      rw [ih (fun hh => hver (by simp [akeys_cons]; exact Or.inr hh))
        (fun x hx => h x (by simp [hx])), exceptBind_ok]
      rw [sortPairs_eq_self hs]

theorem goTruncInt_intCast (v : Int) : goTruncInt (v : Rat) = v := by
  unfold goTruncInt
  rw [Rat.num_intCast, Rat.den_intCast]
  simp [Int.tdiv_one]

theorem num721_json_roundtrip (n : Num721) (hwf : n.wfJSON) :
    Num721.unmarshalJSON n.marshalJSON = .ok n := by
  obtain ⟨hsortP, hver, hpol⟩ := hwf
  have hSp : SortedKeys (n.Policies.map (fun kv =>
      (kv.1, JsonValue.obj (sortPairs (kv.2.map (fun akv =>
        (akv.1, akv.2.marshalJSON))))))) :=
    SortedKeys.map_entry _ hsortP
  have hkeys : akeys (n.Policies.map (fun kv =>
      (kv.1, JsonValue.obj (sortPairs (kv.2.map (fun akv =>
        (akv.1, akv.2.marshalJSON))))))) = akeys n.Policies :=
    akeys_map_entry _ _
  have hverP : "version" ∉ akeys (n.Policies.map (fun kv =>
      (kv.1, JsonValue.obj (sortPairs (kv.2.map (fun akv =>
        (akv.1, akv.2.marshalJSON))))))) := by
    rw [hkeys]
    exact hver
  have hdec : decodePoliciesJSON (n.Policies.map (fun kv =>
      (kv.1, JsonValue.obj (sortPairs (kv.2.map (fun akv =>
        (akv.1, akv.2.marshalJSON))))))) = .ok n.Policies :=
    decodePoliciesJSON_of_marshal n.Policies hver hpol
  by_cases hv : n.Version = 1
  · simp only [Num721.marshalJSON]
    rw [if_neg (by simp [hv]), List.nil_append]
    rw [sortPairs_eq_self hSp]
    simp only [Num721.unmarshalJSON]
    rw [hdec, exceptBind_ok]
    have hvj : num721VersionJSON (n.Policies.map (fun kv =>
        (kv.1, JsonValue.obj (sortPairs (kv.2.map (fun akv =>
          (akv.1, akv.2.marshalJSON))))))) = 1 := by
      unfold num721VersionJSON
      rw [alookup_eq_none_of_not_mem hverP]
    rw [hvj, sortPairs_eq_self hsortP]
    conv_rhs => rw [show n = (⟨n.Version, n.Policies⟩ : Num721) from rfl]
    rw [hv]
  · simp only [Num721.marshalJSON]
    rw [if_pos hv]
    have hndL : (akeys (("version", JsonValue.num (n.Version : Rat)) ::
        n.Policies.map (fun kv =>
          (kv.1, JsonValue.obj (sortPairs (kv.2.map (fun akv =>
            (akv.1, akv.2.marshalJSON)))))))).Nodup := by
      rw [akeys_cons, List.nodup_cons]
      exact ⟨hverP, hkeys ▸ hsortP.nodup_akeys⟩
    simp only [List.cons_append, List.nil_append]
    simp only [Num721.unmarshalJSON]
    have hfe : (sortPairs (("version", JsonValue.num (n.Version : Rat)) ::
        n.Policies.map (fun kv =>
          (kv.1, JsonValue.obj (sortPairs (kv.2.map (fun akv =>
            (akv.1, akv.2.marshalJSON)))))))).filter
          (fun kv => kv.1 != "version") =
        n.Policies.map (fun kv =>
          (kv.1, JsonValue.obj (sortPairs (kv.2.map (fun akv =>
            (akv.1, akv.2.marshalJSON)))))) := by
      have hp1 : (List.filter (fun kv => kv.1 != "version")
          (sortPairs (("version", JsonValue.num (n.Version : Rat)) ::
            n.Policies.map (fun kv =>
              (kv.1, JsonValue.obj (sortPairs (kv.2.map (fun akv =>
                (akv.1, akv.2.marshalJSON))))))))).Perm
          (List.filter (fun kv => kv.1 != "version")
            (("version", JsonValue.num (n.Version : Rat)) ::
              n.Policies.map (fun kv =>
                (kv.1, JsonValue.obj (sortPairs (kv.2.map (fun akv =>
                  (akv.1, akv.2.marshalJSON)))))))) :=
        (sortPairs_perm _).filter _
      have hp2 : List.filter (fun kv => kv.1 != "version")
          (("version", JsonValue.num (n.Version : Rat)) ::
            n.Policies.map (fun kv =>
              (kv.1, JsonValue.obj (sortPairs (kv.2.map (fun akv =>
                (akv.1, akv.2.marshalJSON))))))) =
          n.Policies.map (fun kv =>
            (kv.1, JsonValue.obj (sortPairs (kv.2.map (fun akv =>
              (akv.1, akv.2.marshalJSON)))))) := by
        rw [List.filter_cons_of_neg (by simp)]
        exact List.filter_eq_self.mpr (fun kv hkv => by
          rcases kv with ⟨k1, v1⟩
          rw [bne_iff_ne, ne_eq]
          intro hh
          exact hverP (hh ▸ mem_akeys_of_mem hkv))
      rw [hp2] at hp1
      exact eq_of_perm_sortedKeys hp1
        (List.Pairwise.filter _ (sortPairs_sortedKeys _ hndL)) hSp
    rw [decodePoliciesJSON_dropVersion, hfe, hdec, exceptBind_ok]
    have hvj : num721VersionJSON (sortPairs
        (("version", JsonValue.num (n.Version : Rat)) ::
          n.Policies.map (fun kv =>
            (kv.1, JsonValue.obj (sortPairs (kv.2.map (fun akv =>
              (akv.1, akv.2.marshalJSON)))))))) = n.Version := by
      unfold num721VersionJSON
      rw [alookup_sortPairs _ hndL]
      rw [show alookup (("version", JsonValue.num (n.Version : Rat)) ::
        n.Policies.map (fun kv =>
          (kv.1, JsonValue.obj (sortPairs (kv.2.map (fun akv =>
            (akv.1, akv.2.marshalJSON))))))) "version" =
        some (JsonValue.num (n.Version : Rat)) from by simp [alookup]]
      exact goTruncInt_intCast n.Version
    rw [hvj, sortPairs_eq_self hsortP]

theorem cip25_json_roundtrip (c : Cip25Metadata) (hwf : c.num721.wfJSON) :
    Cip25Metadata.unmarshalJSON c.marshalJSON = .ok c := by
  simp only [Cip25Metadata.marshalJSON, Cip25Metadata.unmarshalJSON]
  simp [alookup, num721_json_roundtrip c.num721 hwf, exceptBind_ok]

theorem desc_cbor_roundtrip_all (d : DescField) :
    DescField.unmarshalCBOR d.marshalCBOR = .ok d := by
  rcases d with ⟨ds⟩
  match ds with
  | [] => rfl
  | [s] => rfl
  | s :: t :: rest =>
      simp only [DescField.marshalCBOR, DescField.unmarshalCBOR, List.map_cons]
      rw [show CborValue.text s :: CborValue.text t :: List.map CborValue.text rest =
        List.map CborValue.text (s :: t :: rest) from rfl]
      rw [cborAsStringList_map_text]

theorem file_cbor_roundtrip (f : FileDetails)
    (hwf : f.Extra = [] ∧ f.Src.Uris ≠ []) :
    FileDetails.unmarshalCBOR f.marshalCBOR = .ok f := by
  obtain ⟨hext, hsrc⟩ := hwf
  rcases f with ⟨fn, fm, fs, fe⟩
  simp only at hext
  subst hext
  simp [FileDetails.marshalCBOR, FileDetails.unmarshalCBOR, clookup,
        uri_cbor_roundtrip_val fs hsrc]

theorem filesMapM_cbor_roundtrip (fs : List FileDetails)
    (h : ∀ f ∈ fs, f.Extra = [] ∧ f.Src.Uris ≠ []) :
    (fs.map FileDetails.marshalCBOR).mapM FileDetails.unmarshalCBOR = .ok fs := by
  induction fs with
  | nil => rfl
  | cons f rest ih =>
      simp only [List.map_cons, List.mapM_cons]
      rw [file_cbor_roundtrip f (h f (by simp))]
      rw [ih (fun x hx => h x (by simp [hx]))]
      rfl

theorem asset_cbor_roundtrip (a : AssetMetadata) (hwf : a.wfCBOR) :
    AssetMetadata.unmarshalCBOR a.marshalCBOR = .ok a := by
  obtain ⟨hext, himg, hfls⟩ := hwf
  have hU : UriField.unmarshalCBOR a.Image.marshalCBOR = .ok a.Image :=
    uri_cbor_roundtrip_val a.Image himg
  have hD : DescField.unmarshalCBOR a.Description.marshalCBOR = .ok a.Description :=
    desc_cbor_roundtrip_all a.Description
  have hFm : (a.Files.map FileDetails.marshalCBOR).mapM FileDetails.unmarshalCBOR =
      .ok a.Files := filesMapM_cbor_roundtrip a.Files hfls
  have hFm2 : List.mapM.loop FileDetails.unmarshalCBOR
      (a.Files.map FileDetails.marshalCBOR) [] = .ok a.Files := hFm
  conv_rhs => rw [show a = (⟨a.Name, a.Image, a.MediaType, a.Description,
    a.Files, a.Extra⟩ : AssetMetadata) from rfl]
  rw [hext]
  by_cases hmt : a.MediaType ≠ ""
  · by_cases hf : a.Files.length > 0
    · simp [AssetMetadata.marshalCBOR, AssetMetadata.unmarshalCBOR, clookup,
            hmt, hf, hU, hD, hFm, hFm2, exceptBind_ok]
    · have hF0 : a.Files = [] := List.length_eq_zero.mp (by omega)
      simp [AssetMetadata.marshalCBOR, AssetMetadata.unmarshalCBOR, clookup,
            hmt, hf, hU, hD, hF0, exceptBind_ok]
  · have hMT : a.MediaType = "" := not_not.mp hmt
    by_cases hf : a.Files.length > 0
    · simp [AssetMetadata.marshalCBOR, AssetMetadata.unmarshalCBOR, clookup,
            hMT, hf, hU, hD, hFm, hFm2, exceptBind_ok]
    · have hF0 : a.Files = [] := List.length_eq_zero.mp (by omega)
      simp [AssetMetadata.marshalCBOR, AssetMetadata.unmarshalCBOR, clookup,
            hMT, hf, hU, hD, hF0, exceptBind_ok]

theorem encodeKeyV_one (k : String) : encodeKeyV 1 k = .text k := by
  simp [encodeKeyV]

theorem decodeKeyV_one_text (k : String) : decodeKeyV 1 (.text k) = .ok k := by
  simp [decodeKeyV]

theorem clookup_map_textkey {β : Type} (l : List (String × β))
    (f : String × β → CborValue) (k : String) (hk : k ∉ akeys l) :
    clookup (l.map (fun kv => (CborValue.text kv.1, f kv))) k = none := by
  induction l with
  | nil => rfl
  | cons kv rest ih =>
      rw [akeys_cons, List.mem_cons] at hk
      push_neg at hk
      simp only [List.map_cons, clookup]
      rw [if_neg (fun hh => hk.1 hh.symm)]
      exact ih hk.2

theorem decodeAssetsCBOR_of_marshal (assets : List (String × AssetMetadata))
    (h : ∀ a ∈ assets, a.2.wfCBOR) :
    decodeAssetsCBOR 1 (assets.map (fun akv =>
      (CborValue.text akv.1, akv.2.marshalCBOR))) = .ok assets := by
  induction assets with
  | nil => rfl
  | cons a rest ih =>
      simp only [List.map_cons, decodeAssetsCBOR]
      rw [decodeKeyV_one_text, exceptBind_ok]
      rw [asset_cbor_roundtrip a.2 (h a (by simp)), exceptBind_ok]
      rw [ih (fun x hx => h x (by simp [hx])), exceptBind_ok]

theorem decodePoliciesCBOR_of_marshal
    (pols : List (String × List (String × AssetMetadata)))
    (hver : "version" ∉ akeys pols)
    (h : ∀ p ∈ pols, SortedKeys p.2 ∧ ∀ a ∈ p.2, AssetMetadata.wfCBOR a.2) :
    decodePoliciesCBOR 1 (pols.map (fun kv =>
      (CborValue.text kv.1, CborValue.map ((sortPairs kv.2).map (fun akv =>
        (CborValue.text akv.1, akv.2.marshalCBOR)))))) = .ok pols := by
  induction pols with
  | nil => rfl
  | cons p rest ih =>
      obtain ⟨hs, has⟩ := h p (by simp)
      have hk : p.1 ≠ "version" := by
        intro hh
        exact hver (by simp [akeys, hh])
      simp only [List.map_cons, decodePoliciesCBOR]
      rw [if_neg (by simp [isVersionKey, hk])]
      rw [decodeKeyV_one_text, exceptBind_ok]
      rw [sortPairs_eq_self hs]
      rw [decodeAssetsCBOR_of_marshal p.2 has, exceptBind_ok]
      rw [ih (fun hh => hver (by simp [akeys_cons]; exact Or.inr hh))
        (fun x hx => h x (by simp [hx])), exceptBind_ok]
      rw [sortPairs_eq_self hs]

theorem num721_cbor_roundtrip (n : Num721) (hwf : n.wfCBOR) :
    Num721.unmarshalCBOR n.marshalCBOR = .ok n := by
  obtain ⟨hv1, hsortP, hver, hpol⟩ := hwf
  rcases n with ⟨nv, np⟩
  simp only at hv1 hsortP hver hpol
  subst hv1
  simp only [Num721.marshalCBOR]
  rw [if_neg (by simp), List.nil_append]
  rw [sortPairs_eq_self hsortP]
  simp only [encodeKeyV_one]
  simp only [Num721.unmarshalCBOR]
  rw [show num721VersionScanCBOR (np.map (fun kv =>
      (CborValue.text kv.1, CborValue.map ((sortPairs kv.2).map (fun akv =>
        (CborValue.text akv.1, akv.2.marshalCBOR)))))) = .ok 0 from by
    unfold num721VersionScanCBOR
    rw [clookup_map_textkey np _ "version" hver]]
  rw [exceptBind_ok]
  simp [decodePoliciesCBOR_of_marshal np hver hpol, sortPairs_eq_self hsortP,
        exceptBind_ok]

theorem cip25_cbor_roundtrip (c : Cip25Metadata) (hwf : c.num721.wfCBOR) :
    Cip25Metadata.unmarshalCBOR c.marshalCBOR = .ok c := by
  simp only [Cip25Metadata.marshalCBOR, Cip25Metadata.unmarshalCBOR]
  simp [clookupU, num721_cbor_roundtrip c.num721 hwf, exceptBind_ok]

/-- C1 as stated is false: c1num satisfies every declared validation rule
(validateNum721 c1num = true), yet its JSON round trip is lossy — the file
Extra entry is dropped because FileDetails has no custom MarshalJSON, so the
decoded value differs from the original. -/
theorem C1_counterexample :
    validateNum721 c1num = true ∧
    Num721.unmarshalJSON (Num721.marshalJSON c1num) ≠ .ok c1num := by
  refine ⟨by decide, fun h => ?_⟩
  exact absurd (congrArg firstFileExtraLenE h) (by decide)

/-- C1, amended: the round trips hold for canonically embedded values — a
well-formed CardanoDnsDomain under its CBOR codec; a Num721 whose maps are
key-sorted, whose policy keys avoid the reserved "version", whose assets
drop nothing the JSON codec drops (empty file Extra, typed-key-disjoint
sorted asset Extra, non-empty image), under the JSON codec; a Num721
additionally of version 1 with empty asset Extra under the CBOR codec; and
Cip25Metadata wrappers of such Num721 values under both codecs. -/
theorem C1_roundtrip :
    (∀ d : CardanoDnsDomain, d.wf →
      CardanoDnsDomain.unmarshalCBOR d.marshalCBOR = .ok d) ∧
    (∀ n : Num721, n.wfJSON →
      Num721.unmarshalJSON n.marshalJSON = .ok n) ∧
    (∀ n : Num721, n.wfCBOR →
      Num721.unmarshalCBOR n.marshalCBOR = .ok n) ∧
    (∀ c : Cip25Metadata, c.num721.wfJSON →
      Cip25Metadata.unmarshalJSON c.marshalJSON = .ok c) ∧
    (∀ c : Cip25Metadata, c.num721.wfCBOR →
      Cip25Metadata.unmarshalCBOR c.marshalCBOR = .ok c) :=
  ⟨fun d hwf => domain_roundtrip d hwf,
   fun n hwf => num721_json_roundtrip n hwf,
   fun n hwf => num721_cbor_roundtrip n hwf,
   fun c hwf => cip25_json_roundtrip c hwf,
   fun c hwf => cip25_cbor_roundtrip c hwf⟩

/-- The amended C1 round trips instantiated at concrete well-formed values. -/
theorem C1_roundtrip_witness :
    CardanoDnsDomain.unmarshalCBOR wDomain.marshalCBOR = .ok wDomain ∧
    Num721.unmarshalJSON wNumJ.marshalJSON = .ok wNumJ ∧
    Num721.unmarshalCBOR wNumC.marshalCBOR = .ok wNumC ∧
    Cip25Metadata.unmarshalJSON (Cip25Metadata.mk wNumJ).marshalJSON =
      .ok (Cip25Metadata.mk wNumJ) ∧
    Cip25Metadata.unmarshalCBOR (Cip25Metadata.mk wNumC).marshalCBOR =
      .ok (Cip25Metadata.mk wNumC) :=
  ⟨C1_roundtrip.1 wDomain (by decide),
   C1_roundtrip.2.1 wNumJ (by decide),
   C1_roundtrip.2.2.1 wNumC (by decide),
   C1_roundtrip.2.2.2.1 (Cip25Metadata.mk wNumJ) (by decide),
   C1_roundtrip.2.2.2.2 (Cip25Metadata.mk wNumC) (by decide)⟩
